/-
Verification of the QMS normalized sheet store (zustand store `useSheetStore`
with snapshot undo/redo) and its validation utilities.

The embedding models:
  - JS plain objects used as string-keyed records (`Rec`), with the semantics
    of `{...obj, [k]: v}` (update in place, else append), `delete obj[k]`, and
    `Object.values`;
  - JS array `splice`-based reordering and insertion;
  - the store state (`St`): the six persisted data fields (`SheetData`), the
    history snapshot list, the history cursor (`-1` means at present, as in
    the source) and the `_isUndoRedo` suppression flag;
  - every mutation operation, the history manager (`_recordHistory`, `undo`,
    `redo`, `canUndo`, `canRedo`), the validation functions, and the
    persisted-state validity predicate over dynamic JS values.
-/
import Mathlib

set_option maxHeartbeats 1000000

/-! ### JS records (plain objects keyed by strings) -/

/-- A JS plain object used as a string-keyed record, in insertion order. -/
abbrev Rec (α : Type) := List (String × α)

/-- Property lookup `obj[k]` (first matching key; objects built by the store
have unique keys). -/
def Rec.find {α : Type} : Rec α → String → Option α
  | [], _ => none
  | (k2, v) :: rest, k => if k2 = k then some v else Rec.find rest k

/-- Key-presence test, `k in obj`. -/
def Rec.contains {α : Type} (m : Rec α) (k : String) : Bool :=
  (Rec.find m k).isSome

/-- JS spread update `{...obj, [k]: v}`: an existing key keeps its position and
gets the new value; a fresh key is appended at the end. -/
def Rec.insert {α : Type} (m : Rec α) (k : String) (v : α) : Rec α :=
  if Rec.contains m k then m.map (fun p => if p.1 = k then (k, v) else p)
  else m ++ [(k, v)]

/-- JS `delete obj[k]`. -/
def Rec.erase {α : Type} (m : Rec α) (k : String) : Rec α :=
  m.filter (fun p => decide (p.1 ≠ k))

/-- JS `Object.values(obj)`. -/
def Rec.values {α : Type} (m : Rec α) : List α :=
  m.map (fun p => p.2)

/-! ### JS array helpers -/

/-- JS `Array.prototype.includes`. -/
def jsIncludes (l : List String) (x : String) : Bool :=
  l.any (fun y => decide (y = x))

/-- JS `arr.splice(i, 0, x)`: insert `x` at position `i` (clamped to the end
when `i` exceeds the length). -/
def spliceInsert {α : Type} (l : List α) (i : Nat) (x : α) : List α :=
  l.take i ++ x :: l.drop i

/-- JS move-within-array used by every reorder operation:
`const [removed] = arr.splice(src, 1); arr.splice(dst, 0, removed)`.
When `src` is out of range, `splice` removes nothing (JS would then insert
`undefined`; no reorder in this development is invoked with an out-of-range
source index, and the model leaves the array unchanged in that case). -/
def spliceMove {α : Type} (l : List α) (src dst : Nat) : List α :=
  if h : src < l.length then
    spliceInsert (l.take src ++ l.drop (src + 1)) dst (l.get ⟨src, h⟩)
  else l

/-- JS array indexing `arr[i]` with a possibly negative index: negative indices
and indices past the end read `undefined`. -/
def getIdx {α : Type} (l : List α) (i : Int) : Option α :=
  if i < 0 then none else l.get? i.toNat

/-! ### Entities and store state (src/unnamed/part_005) -/

structure TopicEntity where
  id : String
  name : String
  subTopicIds : List String
deriving DecidableEq, Repr

structure SubTopicEntity where
  id : String
  name : String
  topicId : String
  questionIds : List String
deriving DecidableEq, Repr

structure QuestionEntity where
  id : String
  title : String
  difficulty : Option String
  link : Option String
deriving DecidableEq, Repr

/-- The persisted data portion of the store (`PersistedState` in the source);
a history snapshot (`HistorySnapshot`) is exactly this shape, and snapshots
are deep copies, which for pure values is the identity. -/
structure SheetData where
  topicsById : Rec TopicEntity
  subTopicsById : Rec SubTopicEntity
  questionsById : Rec QuestionEntity
  topicOrder : List String
  expandedTopics : Rec Bool
  expandedSubTopics : Rec Bool
deriving DecidableEq, Repr

/-- The store state: persisted data plus the undo/redo machinery
(`_history`, `_historyIndex` with `-1` meaning at present, `_isUndoRedo`).
The transient fetch fields (`loading`, `error`, `_hasHydrated`) are never
read or written by the embedded operations and are omitted. -/
structure St where
  data : SheetData
  history : List SheetData
  histIdx : Int
  isUndoRedo : Bool
deriving DecidableEq, Repr

/-- `MAX_HISTORY_SIZE` in the source. -/
def MAX_HISTORY_SIZE : Nat := 20

/-- Result shape `{ success: boolean; error?: string }` returned by the
add/update operations. -/
structure OpResult where
  success : Bool
  error : Option String
deriving DecidableEq, Repr

/-- JS whitespace for `String.prototype.trim`. -/
def isJsWhitespace (c : Char) : Bool :=
  c = ' ' || c = '\t' || c = '\n' || c = '\r' || c = '\x0b' || c = '\x0c'

/-- JS `String.prototype.trim` (a platform builtin), modelled over the
character list: strips leading and trailing whitespace. -/
def jsTrim (s : String) : String :=
  String.mk (((s.toList.dropWhile isJsWhitespace).reverse.dropWhile
    isJsWhitespace).reverse)

/-- JS `String.prototype.toLowerCase` (a platform builtin), modelled
characterwise. -/
def jsToLower (s : String) : String :=
  String.mk (s.toList.map Char.toLower)

/-! ### Validation utilities (src/unnamed/part_007) -/

structure ValidationResult where
  valid : Bool
  error : Option String
deriving DecidableEq, Repr

/-- `validateName(name, existingNames, fieldLabel)`. -/
def validateName (name : String) (existingNames : List String)
    (fieldLabel : String) : ValidationResult :=
  let trimmed := jsTrim name
  if trimmed = "" then ⟨false, some (fieldLabel ++ " is required")⟩
  else if trimmed.length < 2 then
    ⟨false, some (fieldLabel ++ " must be at least 2 characters")⟩
  else if trimmed.length > 100 then
    ⟨false, some (fieldLabel ++ " must be less than 100 characters")⟩
  else if existingNames.any (fun e => decide (jsToLower e = jsToLower trimmed)) then
    ⟨false, some (fieldLabel ++ " already exists")⟩
  else ⟨true, none⟩

/-- `validateQuestionTitle(title, existingTitles)`. -/
def validateQuestionTitle (title : String) (existingTitles : List String) :
    ValidationResult :=
  let trimmed := jsTrim title
  if trimmed = "" then ⟨false, some "Question title is required"⟩
  else if trimmed.length < 3 then
    ⟨false, some "Question title must be at least 3 characters"⟩
  else if trimmed.length > 200 then
    ⟨false, some "Question title must be less than 200 characters"⟩
  else if existingTitles.any (fun e => decide (jsToLower e = jsToLower trimmed)) then
    ⟨false, some "Question with this title already exists"⟩
  else ⟨true, none⟩

/-- Modelled from the spec: the source checks URLs with the platform `URL`
constructor (`new URL(trimmed)`), a browser builtin that is not part of this
repository. The model captures its success condition as: the string is an
absolute URL, i.e. it starts with a scheme — an ASCII letter followed by
letters, digits, `+`, `-` or `.` — terminated by `:`. On success the value
is the `protocol` property: the lowercased scheme followed by `:`. -/
def urlProtocol (s : String) : Option String :=
  match s.toList with
  | [] => none
  | c :: rest =>
    if c.isAlpha then
      let schemeChars := (c :: rest).takeWhile
        (fun ch => ch.isAlphanum || ch = '+' || ch = '-' || ch = '.')
      match (c :: rest).drop schemeChars.length with
      | ':' :: _ => some (jsToLower (String.mk schemeChars) ++ ":")
      | _ => none
    else none

/-- `validateUrl(url)`. -/
def validateUrl (url : String) : ValidationResult :=
  let trimmed := jsTrim url
  if trimmed = "" then ⟨true, none⟩
  else
    match urlProtocol trimmed with
    | none => ⟨false, some "Invalid URL format"⟩
    | some p =>
      if p ≠ "http:" ∧ p ≠ "https:" then
        ⟨false, some "URL must use http or https protocol"⟩
      else ⟨true, none⟩

/-- `validateDifficulty(difficulty)`. -/
def validateDifficulty (difficulty : String) : ValidationResult :=
  if difficulty = "" then ⟨true, none⟩
  else if ["Easy", "Medium", "Hard"].any (fun d => decide (d = difficulty)) then
    ⟨true, none⟩
  else ⟨false, some "Invalid difficulty level"⟩

/-! ### History manager (`_recordHistory`, `undo`, `redo`, `canUndo`, `canRedo`) -/

/-- `createSnapshot`: a deep, independent copy of the six persisted fields;
for pure values this is the identity on `SheetData`. -/
def createSnapshot (s : St) : SheetData := s.data

/-- `applySnapshot`: restore the six persisted fields of a snapshot. -/
def applySnap (snap : SheetData) (s : St) : St := { s with data := snap }

/-- `_recordHistory` (source name): push a snapshot of the current state,
truncating the redo branch when in the past, trimming to `MAX_HISTORY_SIZE`
oldest-first, and resetting the cursor to "at present"; a no-op while an
undo/redo restore is in flight. -/
def recordHistory (s : St) : St :=
  if s.isUndoRedo then s
  else
    let snapshot := createSnapshot s
    let newHistory :=
      if 0 ≤ s.histIdx then s.history.take (s.histIdx.toNat + 1)
      else s.history
    let newHistory := newHistory ++ [snapshot]
    let newHistory :=
      if MAX_HISTORY_SIZE < newHistory.length then
        newHistory.drop (newHistory.length - MAX_HISTORY_SIZE)
      else newHistory
    { s with history := newHistory, histIdx := -1 }

def canUndo (s : St) : Bool :=
  if s.histIdx = -1 then decide (0 < s.history.length)
  else decide (0 < s.histIdx)

def canRedo (s : St) : Bool :=
  decide (0 ≤ s.histIdx) && decide (s.histIdx < (s.history.length : Int) - 1)

def undo (s : St) : St :=
  if canUndo s = false then s
  else
    let s1 :=
      if s.histIdx = -1 then
        { s with isUndoRedo := true,
                 history := s.history ++ [createSnapshot s],
                 histIdx := (s.history.length : Int) - 1 }
      else { s with isUndoRedo := true, histIdx := s.histIdx - 1 }
    match getIdx s1.history s1.histIdx with
    | some snap => applySnap snap { s1 with isUndoRedo := false }
    | none => { s1 with isUndoRedo := false }

def redo (s : St) : St :=
  if canRedo s = false then s
  else
    let s1 := { s with isUndoRedo := true, histIdx := s.histIdx + 1 }
    match getIdx s1.history s1.histIdx with
    | some snap =>
      let atPresent := s1.histIdx = (s1.history.length : Int) - 1
      { applySnap snap s1 with
          isUndoRedo := false,
          histIdx := if atPresent then -1 else s1.histIdx,
          history := if atPresent then s1.history.dropLast else s1.history }
    | none => { s1 with isUndoRedo := false }

/-- The committing tail shared by every successful mutation:
`get()._recordHistory(); set(...)`, where the `set` replaces the data fields
with the values a mutation computes (the data read back inside the `set`
equals the pre-record data, since `_recordHistory` only touches history
fields). -/
def commitStep (d : SheetData) (s : St) : St :=
  { recordHistory s with data := d }

/-- Iterated `undo`. -/
def undoN : Nat → St → St
  | 0, s => s
  | n + 1, s => undoN n (undo s)

/-! ### Computed selectors -/

/-- `getTopicNames(excludeId?)`. -/
def getTopicNames (s : St) (excludeId : Option String) : List String :=
  ((Rec.values s.data.topicsById).filter
    (fun t => decide (some t.id ≠ excludeId))).map (fun t => t.name)

/-- `getSubTopicNames(topicId, excludeId?)`: maps ids through the sub-topic
record and keeps only truthy names (dropping names of missing ids and the
empty string, as the JS truthiness filter does). -/
def getSubTopicNames (s : St) (topicId : String) (excludeId : Option String) :
    List String :=
  match Rec.find s.data.topicsById topicId with
  | none => []
  | some topic =>
    (((topic.subTopicIds.filter (fun i => decide (some i ≠ excludeId))).filterMap
      (fun i => (Rec.find s.data.subTopicsById i).map (fun st => st.name))).filter
      (fun n => decide (n ≠ "")))

/-- `getQuestionTitles(subTopicId, excludeId?)`. -/
def getQuestionTitles (s : St) (subTopicId : String) (excludeId : Option String) :
    List String :=
  match Rec.find s.data.subTopicsById subTopicId with
  | none => []
  | some st =>
    (((st.questionIds.filter (fun i => decide (some i ≠ excludeId))).filterMap
      (fun i => (Rec.find s.data.questionsById i).map (fun q => q.title))).filter
      (fun n => decide (n ≠ "")))

/-! ### Mutation API: topic operations -/

/-- `addTopic(name)`; the fresh id from `generateId()` is passed explicitly. -/
def addTopic (name freshId : String) (s : St) : OpResult × St :=
  let validation := validateName name (getTopicNames s none) "Topic name"
  if validation.valid = false then (⟨false, validation.error⟩, s)
  else
    (⟨true, none⟩,
     commitStep
       { s.data with
           topicsById := Rec.insert s.data.topicsById freshId
             ⟨freshId, jsTrim name, []⟩,
           topicOrder := s.data.topicOrder ++ [freshId],
           expandedTopics := Rec.insert s.data.expandedTopics freshId true }
       s)

/-- `updateTopic(id, name)`. -/
def updateTopic (id name : String) (s : St) : OpResult × St :=
  match Rec.find s.data.topicsById id with
  | none => (⟨false, some "Topic not found"⟩, s)
  | some t =>
    let validation := validateName name (getTopicNames s (some id)) "Topic name"
    if validation.valid = false then (⟨false, validation.error⟩, s)
    else
      (⟨true, none⟩,
       commitStep
         { s.data with
             topicsById := Rec.insert s.data.topicsById id
               ({ t with name := jsTrim name }) }
         s)

/-- `deleteTopic(id)`: cascade delete of the topic, its sub-topics and their
questions, plus the order array and expand flags. -/
def deleteTopic (id : String) (s : St) : St :=
  match Rec.find s.data.topicsById id with
  | none => s
  | some topic =>
    let subTopicIdsToDelete := topic.subTopicIds
    let questionIdsToDelete := subTopicIdsToDelete.flatMap
      (fun stId =>
        match Rec.find s.data.subTopicsById stId with
        | some st => st.questionIds
        | none => [])
    commitStep
      { s.data with
          topicsById := Rec.erase s.data.topicsById id,
          subTopicsById := subTopicIdsToDelete.foldl
            (fun m stId => Rec.erase m stId) s.data.subTopicsById,
          questionsById := questionIdsToDelete.foldl
            (fun m qId => Rec.erase m qId) s.data.questionsById,
          topicOrder := s.data.topicOrder.filter (fun tId => decide (tId ≠ id)),
          expandedTopics := Rec.erase s.data.expandedTopics id,
          expandedSubTopics := subTopicIdsToDelete.foldl
            (fun m stId => Rec.erase m stId) s.data.expandedSubTopics }
      s

/-- `reorderTopics(sourceIndex, destinationIndex)`: records history first,
then splices the order array. -/
def reorderTopics (src dst : Nat) (s : St) : St :=
  let s1 := recordHistory s
  { s1 with data :=
      { s1.data with topicOrder := spliceMove s1.data.topicOrder src dst } }

/-! ### Mutation API: sub-topic operations -/

/-- `addSubTopic(topicId, name)`. -/
def addSubTopic (topicId name freshId : String) (s : St) : OpResult × St :=
  match Rec.find s.data.topicsById topicId with
  | none => (⟨false, some "Topic not found"⟩, s)
  | some topic =>
    let validation :=
      validateName name (getSubTopicNames s topicId none) "Sub-topic name"
    if validation.valid = false then (⟨false, validation.error⟩, s)
    else
      (⟨true, none⟩,
       commitStep
         { s.data with
             subTopicsById := Rec.insert s.data.subTopicsById freshId
               ⟨freshId, jsTrim name, topicId, []⟩,
             topicsById := Rec.insert s.data.topicsById topicId
               ({ topic with subTopicIds := topic.subTopicIds ++ [freshId] }),
             expandedSubTopics := Rec.insert s.data.expandedSubTopics freshId true }
         s)

/-- `updateSubTopic(topicId, subTopicId, name)`. -/
def updateSubTopic (topicId subTopicId name : String) (s : St) : OpResult × St :=
  match Rec.find s.data.subTopicsById subTopicId with
  | none => (⟨false, some "Sub-topic not found"⟩, s)
  | some st =>
    let validation :=
      validateName name (getSubTopicNames s topicId (some subTopicId))
        "Sub-topic name"
    if validation.valid = false then (⟨false, validation.error⟩, s)
    else
      (⟨true, none⟩,
       commitStep
         { s.data with
             subTopicsById := Rec.insert s.data.subTopicsById subTopicId
               ({ st with name := jsTrim name }) }
         s)

/-- `deleteSubTopic(topicId, subTopicId)`. -/
def deleteSubTopic (topicId subTopicId : String) (s : St) : St :=
  match Rec.find s.data.topicsById topicId, Rec.find s.data.subTopicsById subTopicId with
  | some topic, some st =>
    commitStep
      { s.data with
          questionsById := st.questionIds.foldl
            (fun m qId => Rec.erase m qId) s.data.questionsById,
          subTopicsById := Rec.erase s.data.subTopicsById subTopicId,
          topicsById := Rec.insert s.data.topicsById topicId
            ({ topic with subTopicIds :=
                topic.subTopicIds.filter (fun i => decide (i ≠ subTopicId)) }),
          expandedSubTopics := Rec.erase s.data.expandedSubTopics subTopicId }
      s
  | _, _ => s

/-- `reorderSubTopics(topicId, sourceIndex, destinationIndex)`: records
history first, then looks the topic up inside the `set` (a missing topic
leaves the data unchanged, but the snapshot has already been recorded). -/
def reorderSubTopics (topicId : String) (src dst : Nat) (s : St) : St :=
  let s1 := recordHistory s
  match Rec.find s1.data.topicsById topicId with
  | none => s1
  | some topic =>
    let updated : TopicEntity :=
      { topic with subTopicIds := spliceMove topic.subTopicIds src dst }
    { s1 with data :=
        { s1.data with
            topicsById := Rec.insert s1.data.topicsById topicId updated } }

/-- `moveSubTopicToTopic(subTopicId, fromTopicId, toTopicId, destinationIndex)`:
both topics and the sub-topic must exist and the sub-topic's back-reference
must name the claimed source; otherwise a silent no-op. The destination array
is read from the pre-update state, so a self-move duplicates the id. -/
def moveSubTopicToTopic (subTopicId fromTopicId toTopicId : String)
    (destinationIndex : Nat) (s : St) : St :=
  match Rec.find s.data.topicsById fromTopicId,
        Rec.find s.data.topicsById toTopicId,
        Rec.find s.data.subTopicsById subTopicId with
  | some fromTopic, some toTopic, some st =>
    if st.topicId ≠ fromTopicId then s
    else
      let newFromSubTopicIds :=
        fromTopic.subTopicIds.filter (fun i => decide (i ≠ subTopicId))
      let newToSubTopicIds :=
        spliceInsert toTopic.subTopicIds destinationIndex subTopicId
      commitStep
        { s.data with
            topicsById := Rec.insert
              (Rec.insert s.data.topicsById fromTopicId
                ({ fromTopic with subTopicIds := newFromSubTopicIds }))
              toTopicId ({ toTopic with subTopicIds := newToSubTopicIds }),
            subTopicsById := Rec.insert s.data.subTopicsById subTopicId
              ({ st with topicId := toTopicId }) }
        s
  | _, _, _ => s

/-! ### Mutation API: question operations -/

/-- Caller-supplied question payload for `addQuestion`. -/
structure QuestionInput where
  title : String
  difficulty : Option String
  link : Option String
deriving DecidableEq, Repr

/-- Caller-supplied partial updates for `updateQuestion`. -/
structure QuestionUpdates where
  title : Option String
  difficulty : Option String
  link : Option String
deriving DecidableEq, Repr

/-- `addQuestion(topicId, subTopicId, question)`; the first parameter is
unused in the source as well. The URL and difficulty checks only run when the
field is present and truthy (non-empty). -/
def addQuestion (subTopicId : String) (q : QuestionInput) (freshId : String)
    (s : St) : OpResult × St :=
  match Rec.find s.data.subTopicsById subTopicId with
  | none => (⟨false, some "Sub-topic not found"⟩, s)
  | some st =>
    let titleValidation :=
      validateQuestionTitle q.title (getQuestionTitles s subTopicId none)
    if titleValidation.valid = false then (⟨false, titleValidation.error⟩, s)
    else
      let urlValidation := match q.link with
        | some l => if l ≠ "" then validateUrl l else ⟨true, none⟩
        | none => (⟨true, none⟩ : ValidationResult)
      if urlValidation.valid = false then (⟨false, urlValidation.error⟩, s)
      else
        let diffValidation := match q.difficulty with
          | some d => if d ≠ "" then validateDifficulty d else ⟨true, none⟩
          | none => (⟨true, none⟩ : ValidationResult)
        if diffValidation.valid = false then (⟨false, diffValidation.error⟩, s)
        else
          let newQuestion : QuestionEntity :=
            { id := freshId,
              title := jsTrim q.title,
              difficulty := q.difficulty,
              link := match q.link with
                | some l => if jsTrim l = "" then none else some (jsTrim l)
                | none => none }
          (⟨true, none⟩,
           commitStep
             { s.data with
                 questionsById := Rec.insert s.data.questionsById freshId
                   newQuestion,
                 subTopicsById := Rec.insert s.data.subTopicsById subTopicId
                   ({ st with questionIds := st.questionIds ++ [freshId] }) }
             s)

/-- `updateQuestion(topicId, subTopicId, questionId, updates)`; omitted title
and difficulty keep the stored value (`??`), while the link is always
rewritten as `updates.link?.trim() || undefined`. -/
def updateQuestion (subTopicId questionId : String) (u : QuestionUpdates)
    (s : St) : OpResult × St :=
  match Rec.find s.data.questionsById questionId with
  | none => (⟨false, some "Question not found"⟩, s)
  | some q =>
    let titleValidation := match u.title with
      | some t =>
        validateQuestionTitle t (getQuestionTitles s subTopicId (some questionId))
      | none => (⟨true, none⟩ : ValidationResult)
    if titleValidation.valid = false then (⟨false, titleValidation.error⟩, s)
    else
      let urlValidation := match u.link with
        | some l => if l ≠ "" then validateUrl l else ⟨true, none⟩
        | none => (⟨true, none⟩ : ValidationResult)
      if urlValidation.valid = false then (⟨false, urlValidation.error⟩, s)
      else
        let diffValidation := match u.difficulty with
          | some d => if d ≠ "" then validateDifficulty d else ⟨true, none⟩
          | none => (⟨true, none⟩ : ValidationResult)
        if diffValidation.valid = false then (⟨false, diffValidation.error⟩, s)
        else
          (⟨true, none⟩,
           commitStep
             { s.data with
                 questionsById := Rec.insert s.data.questionsById questionId
                   ({ q with
                       title := match u.title with
                         | some t => jsTrim t
                         | none => q.title,
                       difficulty := match u.difficulty with
                         | some d => some d
                         | none => q.difficulty,
                       link := match u.link with
                         | some l => if jsTrim l = "" then none else some (jsTrim l)
                         | none => none }) }
             s)

/-- `deleteQuestion(topicId, subTopicId, questionId)`. -/
def deleteQuestion (subTopicId questionId : String) (s : St) : St :=
  match Rec.find s.data.questionsById questionId,
        Rec.find s.data.subTopicsById subTopicId with
  | some _, some st =>
    commitStep
      { s.data with
          questionsById := Rec.erase s.data.questionsById questionId,
          subTopicsById := Rec.insert s.data.subTopicsById subTopicId
            ({ st with questionIds :=
                st.questionIds.filter (fun i => decide (i ≠ questionId)) }) }
      s
  | _, _ => s

/-- `reorderQuestions(topicId, subTopicId, sourceIndex, destinationIndex)`:
records history first, then looks the sub-topic up inside the `set`. -/
def reorderQuestions (subTopicId : String) (src dst : Nat) (s : St) : St :=
  let s1 := recordHistory s
  match Rec.find s1.data.subTopicsById subTopicId with
  | none => s1
  | some st =>
    let updated : SubTopicEntity :=
      { st with questionIds := spliceMove st.questionIds src dst }
    { s1 with data :=
        { s1.data with
            subTopicsById := Rec.insert s1.data.subTopicsById subTopicId updated } }

/-- `moveQuestionToSubTopic(questionId, fromSubTopicId, toSubTopicId,
destinationIndex)`: all three entities must exist and the source sub-topic
must actually contain the question; otherwise a silent no-op. -/
def moveQuestionToSubTopic (questionId fromSubTopicId toSubTopicId : String)
    (destinationIndex : Nat) (s : St) : St :=
  match Rec.find s.data.subTopicsById fromSubTopicId,
        Rec.find s.data.subTopicsById toSubTopicId,
        Rec.find s.data.questionsById questionId with
  | some fromSubTopic, some toSubTopic, some _ =>
    if jsIncludes fromSubTopic.questionIds questionId = false then s
    else
      let newFromQuestionIds :=
        fromSubTopic.questionIds.filter (fun i => decide (i ≠ questionId))
      let newToQuestionIds :=
        spliceInsert toSubTopic.questionIds destinationIndex questionId
      commitStep
        { s.data with
            subTopicsById := Rec.insert
              (Rec.insert s.data.subTopicsById fromSubTopicId
                ({ fromSubTopic with questionIds := newFromQuestionIds }))
              toSubTopicId ({ toSubTopic with questionIds := newToQuestionIds }) }
        s
  | _, _, _ => s

/-! ### Mutations as data (for quantifying over "any single mutation M") -/

/-- One call to the mutation API; fresh ids drawn by `generateId()` appear as
explicit arguments. The unused `topicId` parameters of the question
operations are dropped (the source ignores them too). -/
inductive Mutation where
  | addTopic (name freshId : String)
  | updateTopic (id name : String)
  | deleteTopic (id : String)
  | reorderTopics (src dst : Nat)
  | addSubTopic (topicId name freshId : String)
  | updateSubTopic (topicId subTopicId name : String)
  | deleteSubTopic (topicId subTopicId : String)
  | reorderSubTopics (topicId : String) (src dst : Nat)
  | moveSubTopicToTopic (subTopicId fromTopicId toTopicId : String) (destinationIndex : Nat)
  | addQuestion (subTopicId : String) (q : QuestionInput) (freshId : String)
  | updateQuestion (subTopicId questionId : String) (u : QuestionUpdates)
  | deleteQuestion (subTopicId questionId : String)
  | reorderQuestions (subTopicId : String) (src dst : Nat)
  | moveQuestionToSubTopic (questionId fromSubTopicId toSubTopicId : String) (destinationIndex : Nat)
deriving DecidableEq, Repr

/-- The state left behind by one mutation call. -/
def applyM (M : Mutation) (s : St) : St :=
  match M with
  | .addTopic name freshId => (addTopic name freshId s).2
  | .updateTopic id name => (updateTopic id name s).2
  | .deleteTopic id => deleteTopic id s
  | .reorderTopics src dst => reorderTopics src dst s
  | .addSubTopic topicId name freshId => (addSubTopic topicId name freshId s).2
  | .updateSubTopic topicId subTopicId name =>
      (updateSubTopic topicId subTopicId name s).2
  | .deleteSubTopic topicId subTopicId => deleteSubTopic topicId subTopicId s
  | .reorderSubTopics topicId src dst => reorderSubTopics topicId src dst s
  | .moveSubTopicToTopic subTopicId fromTopicId toTopicId destinationIndex =>
      moveSubTopicToTopic subTopicId fromTopicId toTopicId destinationIndex s
  | .addQuestion subTopicId q freshId => (addQuestion subTopicId q freshId s).2
  | .updateQuestion subTopicId questionId u =>
      (updateQuestion subTopicId questionId u s).2
  | .deleteQuestion subTopicId questionId => deleteQuestion subTopicId questionId s
  | .reorderQuestions subTopicId src dst => reorderQuestions subTopicId src dst s
  | .moveQuestionToSubTopic questionId fromSubTopicId toSubTopicId destinationIndex =>
      moveQuestionToSubTopic questionId fromSubTopicId toSubTopicId destinationIndex s

/-- The structured `{success, error}` result of a mutation call, for the six
operations that return one (`none` for the void operations). -/
def mutResult (M : Mutation) (s : St) : Option OpResult :=
  match M with
  | .addTopic name freshId => some (addTopic name freshId s).1
  | .updateTopic id name => some (updateTopic id name s).1
  | .addSubTopic topicId name freshId => some (addSubTopic topicId name freshId s).1
  | .updateSubTopic topicId subTopicId name =>
      some (updateSubTopic topicId subTopicId name s).1
  | .addQuestion subTopicId q freshId => some (addQuestion subTopicId q freshId s).1
  | .updateQuestion subTopicId questionId u =>
      some (updateQuestion subTopicId questionId u s).1
  | _ => none

/-- Whether the call reaches `_recordHistory` (i.e. passes its not-found and
validation guards); the three reorder operations record unconditionally. -/
def commits (M : Mutation) (s : St) : Bool :=
  match M with
  | .addTopic name _ => (validateName name (getTopicNames s none) "Topic name").valid
  | .updateTopic id name =>
      (Rec.find s.data.topicsById id).isSome &&
      (validateName name (getTopicNames s (some id)) "Topic name").valid
  | .deleteTopic id => (Rec.find s.data.topicsById id).isSome
  | .reorderTopics _ _ => true
  | .addSubTopic topicId name _ =>
      (Rec.find s.data.topicsById topicId).isSome &&
      (validateName name (getSubTopicNames s topicId none) "Sub-topic name").valid
  | .updateSubTopic topicId subTopicId name =>
      (Rec.find s.data.subTopicsById subTopicId).isSome &&
      (validateName name (getSubTopicNames s topicId (some subTopicId))
        "Sub-topic name").valid
  | .deleteSubTopic topicId subTopicId =>
      (Rec.find s.data.topicsById topicId).isSome &&
      (Rec.find s.data.subTopicsById subTopicId).isSome
  | .reorderSubTopics _ _ _ => true
  | .moveSubTopicToTopic subTopicId fromTopicId toTopicId _ =>
      (Rec.find s.data.topicsById fromTopicId).isSome &&
      (Rec.find s.data.topicsById toTopicId).isSome &&
      (match Rec.find s.data.subTopicsById subTopicId with
       | some st => decide (st.topicId = fromTopicId)
       | none => false)
  | .addQuestion subTopicId q _ =>
      (Rec.find s.data.subTopicsById subTopicId).isSome &&
      (validateQuestionTitle q.title (getQuestionTitles s subTopicId none)).valid &&
      (match q.link with
       | some l => if l ≠ "" then validateUrl l else ⟨true, none⟩
       | none => (⟨true, none⟩ : ValidationResult)).valid &&
      (match q.difficulty with
       | some d => if d ≠ "" then validateDifficulty d else ⟨true, none⟩
       | none => (⟨true, none⟩ : ValidationResult)).valid
  | .updateQuestion subTopicId questionId u =>
      (Rec.find s.data.questionsById questionId).isSome &&
      (match u.title with
       | some t =>
         validateQuestionTitle t (getQuestionTitles s subTopicId (some questionId))
       | none => (⟨true, none⟩ : ValidationResult)).valid &&
      (match u.link with
       | some l => if l ≠ "" then validateUrl l else ⟨true, none⟩
       | none => (⟨true, none⟩ : ValidationResult)).valid &&
      (match u.difficulty with
       | some d => if d ≠ "" then validateDifficulty d else ⟨true, none⟩
       | none => (⟨true, none⟩ : ValidationResult)).valid
  | .deleteQuestion subTopicId questionId =>
      (Rec.find s.data.questionsById questionId).isSome &&
      (Rec.find s.data.subTopicsById subTopicId).isSome
  | .reorderQuestions _ _ _ => true
  | .moveQuestionToSubTopic questionId fromSubTopicId toSubTopicId _ =>
      (Rec.find s.data.subTopicsById fromSubTopicId).isSome &&
      (Rec.find s.data.subTopicsById toSubTopicId).isSome &&
      (Rec.find s.data.questionsById questionId).isSome &&
      (match Rec.find s.data.subTopicsById fromSubTopicId with
       | some f => jsIncludes f.questionIds questionId
       | none => false)

/-! ### Dynamic JS values and the persisted-state validity predicate -/

/-- Dynamic JS value, as seen by `isValidPersistedState(state: unknown)`. -/
inductive JsValue where
  | jsUndefined
  | jsNull
  | bool (b : Bool)
  | num (n : Int)
  | str (s : String)
  | arr (elems : List JsValue)
  | obj (fields : List (String × JsValue))
deriving Repr

/-- JS `typeof`. -/
def typeofJs : JsValue → String
  | .jsUndefined => "undefined"
  | .jsNull => "object"
  | .bool _ => "boolean"
  | .num _ => "number"
  | .str _ => "string"
  | .arr _ => "object"
  | .obj _ => "object"

/-- JS truthiness. -/
def truthy : JsValue → Bool
  | .jsUndefined => false
  | .jsNull => false
  | .bool b => b
  | .num n => decide (n ≠ 0)
  | .str s => decide (s ≠ "")
  | .arr _ => true
  | .obj _ => true

/-- Named-property access `v[k]` on a dynamic value: `undefined` unless `v`
is a plain object with the key. -/
def getProp (v : JsValue) (k : String) : JsValue :=
  match v with
  | .obj fields =>
    match Rec.find fields k with
    | some w => w
    | none => .jsUndefined
  | _ => .jsUndefined

/-- JS `Array.isArray`. -/
def isArrayJs : JsValue → Bool
  | .arr _ => true
  | _ => false

/-- Test for the JS `null` value. -/
def isNullJs : JsValue → Bool
  | .jsNull => true
  | _ => false

/-- `isValidPersistedState(state)` (src/unnamed/part_005 lines 312-332):
requires the six persisted keys with object/array types and that every entry
of `topicOrder` is a string with a truthy record in `topicsById`. -/
def isValidPersistedState (state : JsValue) : Bool :=
  if truthy state = false || typeofJs state ≠ "object" then false
  else
    let tBy := getProp state "topicsById"
    if typeofJs tBy ≠ "object" || isNullJs tBy then false
    else if typeofJs (getProp state "subTopicsById") ≠ "object" ||
            isNullJs (getProp state "subTopicsById") then false
    else if typeofJs (getProp state "questionsById") ≠ "object" ||
            isNullJs (getProp state "questionsById") then false
    else if isArrayJs (getProp state "topicOrder") = false then false
    else if typeofJs (getProp state "expandedTopics") ≠ "object" ||
            isNullJs (getProp state "expandedTopics") then false
    else if typeofJs (getProp state "expandedSubTopics") ≠ "object" ||
            isNullJs (getProp state "expandedSubTopics") then false
    else
      match getProp state "topicOrder" with
      | .arr ids =>
        ids.all (fun id =>
          match id with
          | .str sId => truthy (getProp tBy sId)
          | _ => false)
      | _ => false

/-- A JS container value: a plain object or an array. -/
def isContainerJs : JsValue → Bool
  | .obj _ => true
  | .arr _ => true
  | _ => false

/-- The claim's acceptance conditions, following the specification's words:
the shape is an object whose five mapping keys are present with container
(object/array) values, whose topic order key holds an array, and every id in
that array is a string whose record exists (truthy) in the topic mapping. -/
def specShapeOk (v : JsValue) : Bool :=
  match v with
  | .obj fields =>
    (["topicsById", "subTopicsById", "questionsById",
      "expandedTopics", "expandedSubTopics"].all (fun k =>
        match Rec.find fields k with
        | some w => isContainerJs w
        | none => false)) &&
    (match Rec.find fields "topicOrder" with
     | some (.arr ids) =>
       ids.all (fun id =>
         match id with
         | .str sId =>
           (match Rec.find fields "topicsById" with
            | some tBy => truthy (getProp tBy sId)
            | none => false)
         | _ => false)
     | _ => false)
  | _ => false

/-- The `storeCreator` initial data: six empty containers (an empty graph). -/
def emptyData : SheetData := ⟨[], [], [], [], [], []⟩

/-- The `storeCreator` initial store state: empty graph, empty history,
cursor at present. -/
def initialSt : St := ⟨emptyData, [], -1, false⟩

/-- Modelled from the spec: the persistence adapter (the zustand `persist`
middleware, which is a third-party library and not part of this repository's
source) feeds the recovered shape through `isValidPersistedState`; on
rejection `onRehydrateStorage` discards the persisted data
(`localStorage.removeItem`) and the core keeps its empty initial graph. -/
def rehydrateKeep (v : JsValue) : Option JsValue :=
  if isValidPersistedState v then some v else none

/-! ### Concrete sample states (used by the closed witnesses) -/

/-- A small populated graph: one topic with two sub-topics holding two and one
questions. -/
def sampleData : SheetData :=
  { topicsById := [("t1", ⟨"t1", "Arrays", ["s1", "s2"]⟩)],
    subTopicsById := [("s1", ⟨"s1", "Basics", "t1", ["q1", "q2"]⟩),
                      ("s2", ⟨"s2", "Advanced", "t1", ["q3"]⟩)],
    questionsById := [("q1", ⟨"q1", "Two Sum", some "Easy", none⟩),
                      ("q2", ⟨"q2", "Three Sum", some "Medium", none⟩),
                      ("q3", ⟨"q3", "Max Subarray", none, none⟩)],
    topicOrder := ["t1"],
    expandedTopics := [("t1", true)],
    expandedSubTopics := [("s1", true), ("s2", true)] }

/-- A quiescent store holding `sampleData` with empty history. -/
def sampleSt : St := ⟨sampleData, [], -1, false⟩

/-! ### Record lemmas -/

theorem Rec.find_eq_none_forall {α : Type} {m : Rec α} {k : String}
    (h : Rec.find m k = none) : ∀ p ∈ m, p.1 ≠ k := by
  induction m with
  | nil => intro p hp; cases hp
  | cons q rest ih =>
    obtain ⟨k2, v⟩ := q
    rw [Rec.find] at h
    split at h
    · cases h
    · rename_i hne
      intro p hp
      rcases List.mem_cons.mp hp with hp | hp
      · subst hp; exact hne
      · exact ih h p hp

theorem Rec.find_map_update {α : Type} (m : Rec α) (k : String) (v : α) {w : α}
    (hw : Rec.find m k = some w) :
    Rec.find (m.map (fun p => if p.1 = k then (k, v) else p)) k = some v := by
  induction m generalizing w with
  | nil => cases hw
  | cons q rest ih =>
    obtain ⟨k2, u⟩ := q
    rw [Rec.find] at hw
    rw [List.map_cons]
    by_cases hk : k2 = k
    · have hh : (if (k2, u).1 = k then (k, v) else (k2, u)) = (k, v) := by
        simp [hk]
      rw [hh, Rec.find, if_pos rfl]
    · rw [if_neg hk] at hw
      have hh : (if (k2, u).1 = k then (k, v) else (k2, u)) = (k2, u) := by
        simp [hk]
      rw [hh, Rec.find, if_neg hk]
      exact ih hw

theorem Rec.find_map_update_ne {α : Type} (m : Rec α) (k k2 : String) (v : α)
    (h : k2 ≠ k) :
    Rec.find (m.map (fun p => if p.1 = k then (k, v) else p)) k2 = Rec.find m k2 := by
  induction m with
  | nil => simp [Rec.find]
  | cons q rest ih =>
    obtain ⟨k3, u⟩ := q
    rw [List.map_cons]
    by_cases hk2 : k3 = k2
    · have hk : ¬(k3 = k) := by rw [hk2]; exact h
      have hh : (if (k3, u).1 = k then (k, v) else (k3, u)) = (k3, u) := by
        simp [hk]
      rw [hh, Rec.find, Rec.find, if_pos hk2, if_pos hk2]
    · by_cases hk : k3 = k
      · have hh : (if (k3, u).1 = k then (k, v) else (k3, u)) = (k, v) := by
          simp [hk]
        rw [hh, Rec.find, Rec.find, if_neg (fun hh2 : k = k2 => h hh2.symm),
          if_neg hk2]
        exact ih
      · have hh : (if (k3, u).1 = k then (k, v) else (k3, u)) = (k3, u) := by
          simp [hk]
        rw [hh, Rec.find, Rec.find, if_neg hk2, if_neg hk2]
        exact ih

theorem Rec.find_append {α : Type} (m l : Rec α) (k : String) :
    Rec.find (m ++ l) k =
      match Rec.find m k with
      | some v => some v
      | none => Rec.find l k := by
  induction m with
  | nil => simp [Rec.find]
  | cons q rest ih =>
    obtain ⟨k2, u⟩ := q
    rw [List.cons_append, Rec.find, Rec.find]
    split
    · rfl
    · exact ih

theorem Rec.find_of_not_contains {α : Type} {m : Rec α} {k : String}
    (hc : Rec.contains m k = false) : Rec.find m k = none := by
  rw [Rec.contains] at hc
  cases hfind : Rec.find m k
  · rfl
  · rw [hfind] at hc; simp at hc

theorem Rec.find_insert_self {α : Type} (m : Rec α) (k : String) (v : α) :
    Rec.find (Rec.insert m k v) k = some v := by
  rw [Rec.insert]
  split
  · rename_i hc
    rw [Rec.contains, Option.isSome_iff_exists] at hc
    obtain ⟨w, hw⟩ := hc
    exact Rec.find_map_update m k v hw
  · rename_i hc
    rw [Rec.find_append, Rec.find_of_not_contains (Bool.of_not_eq_true hc)]
    simp [Rec.find]

theorem Rec.find_insert_ne {α : Type} (m : Rec α) (k k2 : String) (v : α)
    (h : k2 ≠ k) : Rec.find (Rec.insert m k v) k2 = Rec.find m k2 := by
  rw [Rec.insert]
  split
  · exact Rec.find_map_update_ne m k k2 v h
  · rw [Rec.find_append]
    have h1 : Rec.find [(k, v)] k2 = none := by
      rw [Rec.find, if_neg (fun hh : k = k2 => h hh.symm)]
      rfl
    rw [h1]
    cases hfind : Rec.find m k2 <;> rfl

theorem Rec.find_erase_self {α : Type} (m : Rec α) (k : String) :
    Rec.find (Rec.erase m k) k = none := by
  rw [Rec.erase]
  induction m with
  | nil => rfl
  | cons q rest ih =>
    obtain ⟨k2, u⟩ := q
    rw [List.filter_cons]
    by_cases hk : k2 = k
    · rw [if_neg (by simp [hk])]
      exact ih
    · rw [if_pos (by simp [hk]), Rec.find, if_neg hk]
      exact ih

theorem Rec.find_erase_ne {α : Type} (m : Rec α) (k k2 : String) (h : k2 ≠ k) :
    Rec.find (Rec.erase m k) k2 = Rec.find m k2 := by
  rw [Rec.erase]
  induction m with
  | nil => rfl
  | cons q rest ih =>
    obtain ⟨k3, u⟩ := q
    rw [List.filter_cons]
    by_cases hk : k3 = k
    · rw [if_neg (by simp [hk])]
      rw [Rec.find, if_neg (by rw [hk]; exact fun hh => h hh.symm)]
      exact ih
    · rw [if_pos (by simp [hk]), Rec.find, Rec.find]
      split
      · rfl
      · exact ih

theorem Rec.find_foldl_erase_none {α : Type} (l : List String) (m : Rec α)
    (x : String) (h : Rec.find m x = none) :
    Rec.find (l.foldl (fun acc k => Rec.erase acc k) m) x = none := by
  induction l generalizing m with
  | nil => exact h
  | cons k rest ih =>
    rw [List.foldl_cons]
    apply ih
    by_cases hk : x = k
    · subst hk; exact Rec.find_erase_self m x
    · rw [Rec.find_erase_ne m k x hk]; exact h

theorem Rec.find_foldl_erase {α : Type} (l : List String) (m : Rec α)
    (x : String) (hx : x ∈ l) :
    Rec.find (l.foldl (fun acc k => Rec.erase acc k) m) x = none := by
  induction l generalizing m with
  | nil => cases hx
  | cons k rest ih =>
    rw [List.foldl_cons]
    rcases List.mem_cons.mp hx with hh | hh
    · subst hh
      exact Rec.find_foldl_erase_none rest (Rec.erase m x) x
        (Rec.find_erase_self m x)
    · exact ih (Rec.erase m k) hh

theorem Rec.mem_insert_elim {α : Type} {m : Rec α} {k : String} {v : α}
    {p : String × α} (hp : p ∈ Rec.insert m k v) :
    (p.1 = k ∧ p.2 = v) ∨ (p ∈ m ∧ p.1 ≠ k) := by
  rw [Rec.insert] at hp
  split at hp
  · rw [List.mem_map] at hp
    obtain ⟨q, hq, he⟩ := hp
    by_cases hk : q.1 = k
    · rw [if_pos hk] at he
      left
      rw [← he]
      exact ⟨rfl, rfl⟩
    · rw [if_neg hk] at he
      right
      rw [← he]
      exact ⟨hq, hk⟩
  · rename_i hc
    rcases List.mem_append.mp hp with hh | hh
    · right
      exact ⟨hh, Rec.find_eq_none_forall
        (Rec.find_of_not_contains (Bool.of_not_eq_true hc)) p hh⟩
    · left
      have he := List.mem_singleton.mp hh
      rw [he]
      exact ⟨rfl, rfl⟩

/-! ### History manager lemmas -/

theorem recordHistory_data (s : St) : (recordHistory s).data = s.data := by
  rw [recordHistory]
  split
  · rfl
  · rfl

theorem commitStep_data (d : SheetData) (s : St) : (commitStep d s).data = d := rfl

theorem commitShape (d : SheetData) (s : St) (h2 : s.isUndoRedo = false) :
    ∃ t : List SheetData,
      commitStep d s = ⟨d, t ++ [s.data], -1, false⟩ ∧
      t.length + 1 ≤ MAX_HISTORY_SIZE := by
  obtain ⟨sd, sh, si, su⟩ := s
  simp only at h2
  subst h2
  simp only [commitStep, recordHistory, createSnapshot, Bool.false_eq_true,
    if_false, MAX_HISTORY_SIZE]
  set base := if 0 ≤ si then sh.take (si.toNat + 1) else sh with hbase
  by_cases htrim : 20 < (base ++ [sd]).length
  · refine ⟨base.drop ((base ++ [sd]).length - 20), ?_, ?_⟩
    · rw [if_pos htrim]
      have hk : (base ++ [sd]).length - 20 ≤ base.length := by
        rw [List.length_append, List.length_singleton] at htrim ⊢
        omega
      rw [List.drop_append_of_le_length hk]
    · rw [List.length_drop]
      rw [List.length_append, List.length_singleton] at htrim ⊢
      omega
  · refine ⟨base, ?_, ?_⟩
    · rw [if_neg htrim]
    · rw [List.length_append, List.length_singleton] at htrim
      omega

theorem undo_c (d s0 : SheetData) (t : List SheetData) :
    undo ⟨d, t ++ [s0], -1, false⟩ =
      ⟨s0, t ++ [s0, d], (t.length : Int), false⟩ := by
  have hcu : canUndo ⟨d, t ++ [s0], -1, false⟩ = true := by
    simp [canUndo]
  have hlen : ((t ++ [s0]).length : Int) - 1 = (t.length : Int) := by
    rw [List.length_append, List.length_singleton]
    push_cast
    omega
  have hsplit : (t ++ [s0]) ++ [d] = t ++ [s0, d] := by
    rw [List.append_assoc]
    rfl
  have hget : getIdx (t ++ [s0, d]) (t.length : Int) = some s0 := by
    rw [getIdx, if_neg (by omega)]
    have h1 : ((t.length : Int)).toNat = t.length := by simp
    rw [h1, ← hsplit, List.get?_append (by simp), List.get?_concat_length]
  rw [undo, hcu]
  simp only [Bool.true_eq_false, if_false, if_true, createSnapshot, hlen,
    hsplit, hget, applySnap]

theorem redo_c (d s0 : SheetData) (t : List SheetData) :
    redo ⟨s0, t ++ [s0, d], (t.length : Int), false⟩ =
      ⟨d, t ++ [s0], -1, false⟩ := by
  have hlen2 : (t ++ [s0, d]).length = t.length + 2 := by simp
  have hcr : canRedo ⟨s0, t ++ [s0, d], (t.length : Int), false⟩ = true := by
    simp only [canRedo, hlen2]
    rw [Bool.and_eq_true]
    constructor
    · simp
    · rw [decide_eq_true_eq]
      push_cast
      omega
  have hsplit : t ++ [s0, d] = (t ++ [s0]) ++ [d] := by
    rw [List.append_assoc]
    rfl
  have hget : getIdx (t ++ [s0, d]) ((t.length : Int) + 1) = some d := by
    rw [getIdx, if_neg (by omega)]
    have h1 : ((t.length : Int) + 1).toNat = t.length + 1 := by omega
    rw [h1, hsplit]
    have h2 : t.length + 1 = (t ++ [s0]).length := by simp
    rw [h2, List.get?_concat_length]
  have hat : ((t.length : Int) + 1 = ((t ++ [s0, d]).length : Int) - 1) = True := by
    rw [hlen2]
    apply eq_true
    push_cast
    omega
  have hdrop : (t ++ [s0, d]).dropLast = t ++ [s0] := by
    rw [hsplit, List.dropLast_concat]
  rw [redo, hcr]
  simp only [Bool.true_eq_false, if_false, hget, hat, if_true, applySnap, hdrop]

theorem hist_cycle (d : SheetData) (s : St) (h2 : s.isUndoRedo = false) :
    (undo (commitStep d s)).data = s.data ∧
    redo (undo (commitStep d s)) = commitStep d s := by
  obtain ⟨t, hc, _⟩ := commitShape d s h2
  constructor
  · rw [hc, undo_c]
  · rw [hc, undo_c, redo_c]

theorem commitStep_noredo (d : SheetData) (s : St) (h2 : s.isUndoRedo = false) :
    canRedo (commitStep d s) = false ∧ redo (commitStep d s) = commitStep d s := by
  obtain ⟨t, hc, _⟩ := commitShape d s h2
  have h1 : canRedo (commitStep d s) = false := by
    rw [hc]
    simp [canRedo]
  refine ⟨h1, ?_⟩
  rw [redo, h1]
  simp

theorem undo_stuck (s : St) (h : canUndo s = false) : undo s = s := by
  rw [undo, h]
  simp

theorem canUndo_idx_zero (s : St) (h : s.histIdx = 0) : canUndo s = false := by
  rw [canUndo, h]
  simp

theorem undoN_add (a b : Nat) (s : St) : undoN (a + b) s = undoN b (undoN a s) := by
  induction a generalizing s with
  | zero => rw [Nat.zero_add]; rfl
  | succ a ih =>
    have h : a + 1 + b = (a + b) + 1 := by omega
    rw [h, show undoN ((a + b) + 1) s = undoN (a + b) (undo s) from rfl, ih]
    rfl

theorem undoN_fix (s : St) (h : undo s = s) : ∀ n : Nat, undoN n s = s := by
  intro n
  induction n with
  | zero => rfl
  | succ n ih => rw [show undoN (n + 1) s = undoN n (undo s) from rfl, h, ih]

theorem undo_inpast (s : St) (j : Nat) (hj : s.histIdx = ((j + 1 : Nat) : Int))
    (hlen : j + 1 < s.history.length) :
    ∃ snap, undo s = ⟨snap, s.history, (j : Int), false⟩ := by
  have hne : ¬(s.histIdx = -1) := by rw [hj]; omega
  have hcu : canUndo s = true := by
    rw [canUndo, if_neg hne, decide_eq_true_eq, hj]
    push_cast
    omega
  have hj2 : s.histIdx - 1 = (j : Int) := by rw [hj]; push_cast; omega
  have hjlt : j < s.history.length := by omega
  have hget : getIdx s.history (j : Int)
      = some (s.history.get ⟨j, hjlt⟩) := by
    rw [getIdx, if_neg (by omega)]
    have h1 : ((j : Int)).toNat = j := by simp
    rw [h1]
    exact List.get?_eq_get hjlt
  refine ⟨s.history.get ⟨j, hjlt⟩, ?_⟩
  rw [undo, hcu]
  simp only [Bool.true_eq_false, if_false, if_neg hne, hget, applySnap, hj2]

theorem undo_descend (j : Nat) : ∀ s : St, s.histIdx = (j : Int) →
    j < s.history.length → undo (undoN j s) = undoN j s := by
  induction j with
  | zero =>
    intro s hj hlen
    rw [show undoN 0 s = s from rfl]
    exact undo_stuck s (canUndo_idx_zero s hj)
  | succ j ih =>
    intro s hj hlen
    obtain ⟨snap, hu⟩ := undo_inpast s j hj hlen
    rw [show undoN (j + 1) s = undoN j (undo s) from rfl, hu]
    exact ih _ rfl (by show j < s.history.length; omega)

theorem undo_present (s : St) (h1 : s.histIdx = -1) (hL : 0 < s.history.length) :
    ∃ snap, undo s =
      ⟨snap, s.history ++ [s.data],
        ((s.history.length - 1 : Nat) : Int), false⟩ := by
  have hcu : canUndo s = true := by
    rw [canUndo, if_pos h1, decide_eq_true_eq]
    exact hL
  have hjlt : s.history.length - 1 < s.history.length := by omega
  have hc1 : (s.history.length : Int) - 1
      = ((s.history.length - 1 : Nat) : Int) := by push_cast [hL]; omega
  have hget : getIdx (s.history ++ [s.data])
      ((s.history.length - 1 : Nat) : Int)
      = some (s.history.get ⟨s.history.length - 1, hjlt⟩) := by
    rw [getIdx, if_neg (by omega)]
    have h2 : (((s.history.length - 1 : Nat) : Int)).toNat
        = s.history.length - 1 := by simp
    rw [h2, List.get?_append hjlt]
    exact List.get?_eq_get hjlt
  refine ⟨s.history.get ⟨s.history.length - 1, hjlt⟩, ?_⟩
  rw [undo, hcu]
  simp only [Bool.true_eq_false, if_false, if_pos h1, createSnapshot, hget,
    applySnap, hc1]

theorem undoN_stabilize (s : St) (h1 : s.histIdx = -1)
    (h20 : s.history.length ≤ MAX_HISTORY_SIZE) (n : Nat) :
    undoN (20 + n) s = undoN 20 s := by
  rw [MAX_HISTORY_SIZE] at h20
  by_cases h0 : s.history.length = 0
  · have hcu : canUndo s = false := by
      rw [canUndo, if_pos h1, h0]
      simp
    have hs : undo s = s := undo_stuck s hcu
    rw [undoN_fix s hs, undoN_fix s hs]
  · have hL : 0 < s.history.length := Nat.pos_of_ne_zero h0
    obtain ⟨snap, hu⟩ := undo_present s h1 hL
    set L := s.history.length with hLdef
    have hlen2 : L - 1 < (s.history ++ [s.data]).length := by
      rw [List.length_append, List.length_singleton]
      omega
    have hfix := undo_descend (L - 1)
      ⟨snap, s.history ++ [s.data], ((L - 1 : Nat) : Int), false⟩ rfl hlen2
    have key : ∀ m : Nat, L - 1 ≤ m →
        undoN m ⟨snap, s.history ++ [s.data], ((L - 1 : Nat) : Int), false⟩ =
        undoN (L - 1)
          ⟨snap, s.history ++ [s.data], ((L - 1 : Nat) : Int), false⟩ := by
      intro m hm
      have e : m = (L - 1) + (m - (L - 1)) := by omega
      rw [e, undoN_add]
      exact undoN_fix _ hfix _
    have lhs : undoN (20 + n) s = undoN (19 + n) (undo s) := by
      have e1 : 20 + n = 1 + (19 + n) := by omega
      rw [e1, undoN_add]
      rfl
    have rhs : undoN 20 s = undoN 19 (undo s) := by
      rw [show (20 : Nat) = 1 + 19 from rfl, undoN_add]
      rfl
    rw [lhs, rhs, hu, key (19 + n) (by omega), key 19 (by omega)]

/-! ### Mutation dispatch lemmas -/

theorem commitStep_self (s : St) : commitStep s.data s = recordHistory s := by
  rw [commitStep, ← recordHistory_data s]

theorem applyM_commitStep (M : Mutation) (s : St) (h : commits M s = true) :
    ∃ d : SheetData, applyM M s = commitStep d s := by
  cases M with
  | addTopic name freshId =>
    simp only [commits] at h
    simp only [applyM, addTopic]
    rw [h]
    exact ⟨_, rfl⟩
  | updateTopic id name =>
    simp only [commits, Bool.and_eq_true] at h
    obtain ⟨h1, h2⟩ := h
    rw [Option.isSome_iff_exists] at h1
    obtain ⟨t, ht⟩ := h1
    simp only [applyM, updateTopic, ht]
    rw [h2]
    exact ⟨_, rfl⟩
  | deleteTopic id =>
    simp only [commits] at h
    rw [Option.isSome_iff_exists] at h
    obtain ⟨t, ht⟩ := h
    simp only [applyM, deleteTopic, ht]
    exact ⟨_, rfl⟩
  | reorderTopics src dst =>
    refine ⟨{ s.data with topicOrder := spliceMove s.data.topicOrder src dst },
      ?_⟩
    simp only [applyM, reorderTopics, commitStep, recordHistory_data]
  | addSubTopic topicId name freshId =>
    simp only [commits, Bool.and_eq_true] at h
    obtain ⟨h1, h2⟩ := h
    rw [Option.isSome_iff_exists] at h1
    obtain ⟨t, ht⟩ := h1
    simp only [applyM, addSubTopic, ht]
    rw [h2]
    exact ⟨_, rfl⟩
  | updateSubTopic topicId subTopicId name =>
    simp only [commits, Bool.and_eq_true] at h
    obtain ⟨h1, h2⟩ := h
    rw [Option.isSome_iff_exists] at h1
    obtain ⟨t, ht⟩ := h1
    simp only [applyM, updateSubTopic, ht]
    rw [h2]
    exact ⟨_, rfl⟩
  | deleteSubTopic topicId subTopicId =>
    simp only [commits, Bool.and_eq_true] at h
    obtain ⟨h1, h2⟩ := h
    rw [Option.isSome_iff_exists] at h1
    obtain ⟨t, ht⟩ := h1
    rw [Option.isSome_iff_exists] at h2
    obtain ⟨st, hst⟩ := h2
    simp only [applyM, deleteSubTopic, ht, hst]
    exact ⟨_, rfl⟩
  | reorderSubTopics topicId src dst =>
    cases hf : Rec.find s.data.topicsById topicId with
    | none =>
      refine ⟨s.data, ?_⟩
      simp only [applyM, reorderSubTopics, recordHistory_data, hf,
        commitStep_self]
    | some topic =>
      refine ⟨{ s.data with topicsById := Rec.insert s.data.topicsById topicId { topic with subTopicIds := spliceMove topic.subTopicIds src dst } }, ?_⟩
      simp only [applyM, reorderSubTopics, recordHistory_data, hf, commitStep]
  | moveSubTopicToTopic subTopicId fromTopicId toTopicId destinationIndex =>
    cases hfs : Rec.find s.data.subTopicsById subTopicId with
    | none => simp [commits, hfs] at h
    | some st =>
      simp only [commits, hfs, Bool.and_eq_true, decide_eq_true_eq] at h
      obtain ⟨⟨h1, h2⟩, hm⟩ := h
      rw [Option.isSome_iff_exists] at h1
      obtain ⟨ft, hft⟩ := h1
      rw [Option.isSome_iff_exists] at h2
      obtain ⟨tt, htt⟩ := h2
      simp only [applyM, moveSubTopicToTopic, hft, htt, hfs]
      rw [if_neg (not_not_intro hm)]
      exact ⟨_, rfl⟩
  | addQuestion subTopicId q freshId =>
    obtain ⟨qt, qd, ql⟩ := q
    simp only [commits, Bool.and_eq_true] at h
    obtain ⟨⟨⟨h1, h2⟩, h3⟩, h4⟩ := h
    rw [Option.isSome_iff_exists] at h1
    obtain ⟨st, hst⟩ := h1
    cases ql with
    | none =>
      cases qd with
      | none =>
        simp only [applyM, addQuestion, hst]
        rw [h2]
        exact ⟨_, rfl⟩
      | some d2 =>
        simp only at h4
        simp only [applyM, addQuestion, hst]
        rw [h2, h4]
        exact ⟨_, rfl⟩
    | some l =>
      simp only at h3
      cases qd with
      | none =>
        simp only [applyM, addQuestion, hst]
        rw [h2, h3]
        exact ⟨_, rfl⟩
      | some d2 =>
        simp only at h4
        simp only [applyM, addQuestion, hst]
        rw [h2, h3, h4]
        exact ⟨_, rfl⟩
  | updateQuestion subTopicId questionId u =>
    obtain ⟨ut, ud, ul⟩ := u
    simp only [commits, Bool.and_eq_true] at h
    obtain ⟨⟨⟨h1, h2⟩, h3⟩, h4⟩ := h
    rw [Option.isSome_iff_exists] at h1
    obtain ⟨qe, hqe⟩ := h1
    cases ut with
    | none =>
      cases ul with
      | none =>
        cases ud with
        | none =>
          simp only [applyM, updateQuestion, hqe]
          exact ⟨_, rfl⟩
        | some d2 =>
          simp only at h4
          simp only [applyM, updateQuestion, hqe]
          rw [h4]
          exact ⟨_, rfl⟩
      | some l =>
        simp only at h3
        cases ud with
        | none =>
          simp only [applyM, updateQuestion, hqe]
          rw [h3]
          exact ⟨_, rfl⟩
        | some d2 =>
          simp only at h4
          simp only [applyM, updateQuestion, hqe]
          rw [h3, h4]
          exact ⟨_, rfl⟩
    | some t2 =>
      simp only at h2
      cases ul with
      | none =>
        cases ud with
        | none =>
          simp only [applyM, updateQuestion, hqe]
          rw [h2]
          exact ⟨_, rfl⟩
        | some d2 =>
          simp only at h4
          simp only [applyM, updateQuestion, hqe]
          rw [h2, h4]
          exact ⟨_, rfl⟩
      | some l =>
        simp only at h3
        cases ud with
        | none =>
          simp only [applyM, updateQuestion, hqe]
          rw [h2, h3]
          exact ⟨_, rfl⟩
        | some d2 =>
          simp only at h4
          simp only [applyM, updateQuestion, hqe]
          rw [h2, h3, h4]
          exact ⟨_, rfl⟩
  | deleteQuestion subTopicId questionId =>
    simp only [commits, Bool.and_eq_true] at h
    obtain ⟨h1, h2⟩ := h
    rw [Option.isSome_iff_exists] at h1
    obtain ⟨qe, hqe⟩ := h1
    rw [Option.isSome_iff_exists] at h2
    obtain ⟨st, hst⟩ := h2
    simp only [applyM, deleteQuestion, hqe, hst]
    exact ⟨_, rfl⟩
  | reorderQuestions subTopicId src dst =>
    cases hf : Rec.find s.data.subTopicsById subTopicId with
    | none =>
      refine ⟨s.data, ?_⟩
      simp only [applyM, reorderQuestions, recordHistory_data, hf,
        commitStep_self]
    | some st =>
      refine ⟨{ s.data with subTopicsById := Rec.insert s.data.subTopicsById subTopicId { st with questionIds := spliceMove st.questionIds src dst } }, ?_⟩
      simp only [applyM, reorderQuestions, recordHistory_data, hf, commitStep]
  | moveQuestionToSubTopic questionId fromSubTopicId toSubTopicId destinationIndex =>
    cases hfs : Rec.find s.data.subTopicsById fromSubTopicId with
    | none => simp [commits, hfs] at h
    | some fs =>
      simp only [commits, hfs, Bool.and_eq_true] at h
      obtain ⟨⟨⟨h1, h2⟩, h3⟩, hm⟩ := h
      rw [Option.isSome_iff_exists] at h2
      obtain ⟨ts, hts⟩ := h2
      rw [Option.isSome_iff_exists] at h3
      obtain ⟨qe, hqe⟩ := h3
      simp only [applyM, moveQuestionToSubTopic, hfs, hts, hqe]
      rw [hm]
      exact ⟨_, rfl⟩

theorem applyM_no_commit (M : Mutation) (s : St) (h : commits M s = false) :
    applyM M s = s ∧ ∀ r, mutResult M s = some r → r.success = false := by
  cases M with
  | addTopic name freshId =>
    refine ⟨?_, ?_⟩
    · simp only [applyM, addTopic]
      repeat' first | rfl | split
      all_goals exfalso; simp_all [commits]
    · have key : ((addTopic name freshId s).1).success = false := by
        simp only [addTopic]
        repeat' first | rfl | split
        all_goals exfalso; simp_all [commits]
      intro r hr
      simp only [mutResult, Option.some.injEq] at hr
      rw [← hr]
      exact key
  | updateTopic id name =>
    refine ⟨?_, ?_⟩
    · simp only [applyM, updateTopic]
      repeat' first | rfl | split
      all_goals exfalso; simp_all [commits]
    · have key : ((updateTopic id name s).1).success = false := by
        simp only [updateTopic]
        repeat' first | rfl | split
        all_goals exfalso; simp_all [commits]
      intro r hr
      simp only [mutResult, Option.some.injEq] at hr
      rw [← hr]
      exact key
  | deleteTopic id =>
    refine ⟨?_, ?_⟩
    · simp only [applyM, deleteTopic]
      repeat' first | rfl | split
      all_goals exfalso; simp_all [commits]
    · intro r hr
      simp only [mutResult] at hr
      exact Option.noConfusion hr
  | reorderTopics src dst => simp [commits] at h
  | addSubTopic topicId name freshId =>
    refine ⟨?_, ?_⟩
    · simp only [applyM, addSubTopic]
      repeat' first | rfl | split
      all_goals exfalso; simp_all [commits]
    · have key : ((addSubTopic topicId name freshId s).1).success = false := by
        simp only [addSubTopic]
        repeat' first | rfl | split
        all_goals exfalso; simp_all [commits]
      intro r hr
      simp only [mutResult, Option.some.injEq] at hr
      rw [← hr]
      exact key
  | updateSubTopic topicId subTopicId name =>
    refine ⟨?_, ?_⟩
    · simp only [applyM, updateSubTopic]
      repeat' first | rfl | split
      all_goals exfalso; simp_all [commits]
    · have key : ((updateSubTopic topicId subTopicId name s).1).success
          = false := by
        simp only [updateSubTopic]
        repeat' first | rfl | split
        all_goals exfalso; simp_all [commits]
      intro r hr
      simp only [mutResult, Option.some.injEq] at hr
      rw [← hr]
      exact key
  | deleteSubTopic topicId subTopicId =>
    refine ⟨?_, ?_⟩
    · simp only [applyM, deleteSubTopic]
      repeat' first | rfl | split
      all_goals exfalso; simp_all [commits]
    · intro r hr
      simp only [mutResult] at hr
      exact Option.noConfusion hr
  | reorderSubTopics topicId src dst => simp [commits] at h
  | moveSubTopicToTopic subTopicId fromTopicId toTopicId destinationIndex =>
    refine ⟨?_, ?_⟩
    · simp only [applyM, moveSubTopicToTopic]
      repeat' first | rfl | split
      all_goals exfalso; simp_all [commits]
    · intro r hr
      simp only [mutResult] at hr
      exact Option.noConfusion hr
  | addQuestion subTopicId q freshId =>
    obtain ⟨qt, qd, ql⟩ := q
    refine ⟨?_, ?_⟩
    · simp only [applyM, addQuestion]
      cases ql <;> cases qd <;> (repeat' first | rfl | split) <;>
        (exfalso; simp_all [commits])
    · have key : ((addQuestion subTopicId ⟨qt, qd, ql⟩ freshId s).1).success
          = false := by
        simp only [addQuestion]
        cases ql <;> cases qd <;> (repeat' first | rfl | split) <;>
          (exfalso; simp_all [commits])
      intro r hr
      simp only [mutResult, Option.some.injEq] at hr
      rw [← hr]
      exact key
  | updateQuestion subTopicId questionId u =>
    obtain ⟨ut, ud, ul⟩ := u
    refine ⟨?_, ?_⟩
    · simp only [applyM, updateQuestion]
      cases ut <;> cases ul <;> cases ud <;> (repeat' first | rfl | split) <;>
        (exfalso; simp_all [commits])
    · have key : ((updateQuestion subTopicId questionId ⟨ut, ud, ul⟩ s).1).success
          = false := by
        simp only [updateQuestion]
        cases ut <;> cases ul <;> cases ud <;> (repeat' first | rfl | split) <;>
          (exfalso; simp_all [commits])
      intro r hr
      simp only [mutResult, Option.some.injEq] at hr
      rw [← hr]
      exact key
  | deleteQuestion subTopicId questionId =>
    refine ⟨?_, ?_⟩
    · simp only [applyM, deleteQuestion]
      repeat' first | rfl | split
      all_goals exfalso; simp_all [commits]
    · intro r hr
      simp only [mutResult] at hr
      exact Option.noConfusion hr
  | reorderQuestions subTopicId src dst => simp [commits] at h
  | moveQuestionToSubTopic questionId fromSubTopicId toSubTopicId destinationIndex =>
    refine ⟨?_, ?_⟩
    · simp only [applyM, moveQuestionToSubTopic]
      repeat' first | rfl | split
      all_goals exfalso; simp_all [commits]
    · intro r hr
      simp only [mutResult] at hr
      exact Option.noConfusion hr

theorem recordHistory_length (s : St)
    (h : s.history.length ≤ MAX_HISTORY_SIZE) :
    (recordHistory s).history.length ≤ MAX_HISTORY_SIZE := by
  cases hu : s.isUndoRedo
  · obtain ⟨t, hc, hlen⟩ := commitShape s.data s hu
    have hh : (recordHistory s).history = t ++ [s.data] := by
      have h2 := congrArg St.history hc
      simpa [commitStep] using h2
    rw [hh, List.length_append, List.length_singleton]
    omega
  · rw [recordHistory, if_pos hu]
    exact h

theorem applyM_history (M : Mutation) (s : St) :
    (applyM M s).history = s.history ∨
    (applyM M s).history = (recordHistory s).history := by
  cases hcm : commits M s
  · left
    rw [(applyM_no_commit M s hcm).1]
  · right
    obtain ⟨d, hd⟩ := applyM_commitStep M s hcm
    rw [hd]
    rfl

theorem reorderSubTopics_missing (s : St) (topicId : String) (src dst : Nat)
    (hf : Rec.find s.data.topicsById topicId = none) :
    (reorderSubTopics topicId src dst s).data = s.data ∧
    (reorderSubTopics topicId src dst s).history
      = (recordHistory s).history := by
  simp only [reorderSubTopics, recordHistory_data, hf]
  exact ⟨trivial, trivial⟩

theorem reorderQuestions_missing (s : St) (subTopicId : String) (src dst : Nat)
    (hf : Rec.find s.data.subTopicsById subTopicId = none) :
    (reorderQuestions subTopicId src dst s).data = s.data ∧
    (reorderQuestions subTopicId src dst s).history
      = (recordHistory s).history := by
  simp only [reorderQuestions, recordHistory_data, hf]
  exact ⟨trivial, trivial⟩

/-! ### Claim theorems -/

/-- C1. Undo/redo round-trip: applying any single committed mutation `M` from
the at-present state and then calling `undo()` restores the exact pre-`M`
persisted data (the three entity mappings, the order array and the expand
maps, by deep equality), and `undo()` followed by `redo()` restores the exact
post-`M` data. -/
theorem claim_C1_undo_redo_roundtrip (s : St) (M : Mutation)
    (hp : s.histIdx = -1) (hq : s.isUndoRedo = false)
    (hc : commits M s = true) :
    (undo (applyM M s)).data = s.data ∧
    (redo (undo (applyM M s))).data = (applyM M s).data := by
  obtain ⟨d, hd⟩ := applyM_commitStep M s hc
  rw [hd]
  obtain ⟨h1, h2⟩ := hist_cycle d s hq
  refine ⟨h1, ?_⟩
  rw [h2]

/-- C3. Redo-stack invalidation: after `apply(M1); undo(); apply(M2)` (both
mutations committing), `canRedo()` is false and `redo()` leaves the state
unchanged. -/
theorem claim_C3_redo_invalidation (s : St) (M1 M2 : Mutation)
    (hp : s.histIdx = -1) (hq : s.isUndoRedo = false)
    (hc1 : commits M1 s = true)
    (hc2 : commits M2 (undo (applyM M1 s)) = true) :
    canRedo (applyM M2 (undo (applyM M1 s))) = false ∧
    redo (applyM M2 (undo (applyM M1 s)))
      = applyM M2 (undo (applyM M1 s)) := by
  obtain ⟨d1, hd1⟩ := applyM_commitStep M1 s hc1
  have hu : (undo (applyM M1 s)).isUndoRedo = false := by
    rw [hd1]
    obtain ⟨t, hcs, _⟩ := commitShape d1 s hq
    rw [hcs, undo_c]
  obtain ⟨d2, hd2⟩ := applyM_commitStep M2 (undo (applyM M1 s)) hc2
  rw [hd2]
  exact commitStep_noredo d2 (undo (applyM M1 s)) hu

/-- C6. History bound: no mutation grows the snapshot list beyond
`MAX_HISTORY_SIZE` (20), old entries being evicted first, and from any
at-present state whose history respects the bound, iterating `undo()` is
stationary after 20 calls — the cursor floors at the oldest retained
snapshot, so undo can never reach back more than 20 steps. -/
theorem claim_C6_history_bound :
    (∀ (M : Mutation) (s : St), s.history.length ≤ MAX_HISTORY_SIZE →
      (applyM M s).history.length ≤ MAX_HISTORY_SIZE) ∧
    (∀ (s : St) (n : Nat), s.histIdx = -1 →
      s.history.length ≤ MAX_HISTORY_SIZE →
      undoN (20 + n) s = undoN 20 s) := by
  constructor
  · intro M s h
    rcases applyM_history M s with hh | hh
    · rw [hh]
      exact h
    · rw [hh]
      exact recordHistory_length s h
  · intro s n h1 h2
    exact undoN_stabilize s h1 h2 n

/-- C5. Cascade delete: for any existing topic, `deleteTopic` removes the
topic record, every sub-topic it owns and every question those sub-topics
own from their mappings, and drops the topic id from the order array;
afterwards `canUndo()` is true and `undo()` restores the entire pre-delete
data (all deleted entities included). -/
theorem claim_C5_cascade_delete (s : St) (id : String) (t : TopicEntity)
    (hfind : Rec.find s.data.topicsById id = some t)
    (hq : s.isUndoRedo = false) :
    Rec.find (deleteTopic id s).data.topicsById id = none ∧
    (∀ stId ∈ t.subTopicIds,
      Rec.find (deleteTopic id s).data.subTopicsById stId = none) ∧
    (∀ stId ∈ t.subTopicIds, ∀ st : SubTopicEntity,
      Rec.find s.data.subTopicsById stId = some st →
      ∀ qId ∈ st.questionIds,
        Rec.find (deleteTopic id s).data.questionsById qId = none) ∧
    id ∉ (deleteTopic id s).data.topicOrder ∧
    canUndo (deleteTopic id s) = true ∧
    (undo (deleteTopic id s)).data = s.data := by
  have hD : deleteTopic id s = commitStep
      { s.data with
          topicsById := Rec.erase s.data.topicsById id,
          subTopicsById := t.subTopicIds.foldl
            (fun m stId => Rec.erase m stId) s.data.subTopicsById,
          questionsById := (t.subTopicIds.flatMap
            (fun stId =>
              match Rec.find s.data.subTopicsById stId with
              | some st => st.questionIds
              | none => [])).foldl
            (fun m qId => Rec.erase m qId) s.data.questionsById,
          topicOrder := s.data.topicOrder.filter (fun tId => decide (tId ≠ id)),
          expandedTopics := Rec.erase s.data.expandedTopics id,
          expandedSubTopics := t.subTopicIds.foldl
            (fun m stId => Rec.erase m stId) s.data.expandedSubTopics } s := by
    simp only [deleteTopic, hfind]
  refine ⟨?_, ?_, ?_, ?_, ?_, ?_⟩
  · rw [hD]
    exact Rec.find_erase_self s.data.topicsById id
  · intro stId hst
    rw [hD]
    exact Rec.find_foldl_erase t.subTopicIds s.data.subTopicsById stId hst
  · intro stId hst st hfs qId hqs
    rw [hD]
    apply Rec.find_foldl_erase
    rw [List.mem_flatMap]
    refine ⟨stId, hst, ?_⟩
    rw [hfs]
    exact hqs
  · rw [hD]
    simp [commitStep, List.mem_filter]
  · rw [hD]
    obtain ⟨t2, hcs, _⟩ := commitShape _ s hq
    rw [hcs]
    simp [canUndo]
  · rw [hD]
    exact (hist_cycle _ s hq).1

/-- C4. Cross-container question move: when sub-topic `A` holds exactly
`[q1, q2]`, a distinct sub-topic `B` holds `[q3]`, `q1` exists, and `A` is
the only sub-topic containing `q1`, then
`moveQuestionToSubTopic(q1, A, B, 0)` leaves `A.questionIds = [q2]`,
`B.questionIds = [q1, q3]`, and `B` becomes the unique owner of `q1`. -/
theorem claim_C4_cross_container_move (s : St) (q1 q2 q3 A B : String)
    (a b : SubTopicEntity) (qe : QuestionEntity)
    (hA : Rec.find s.data.subTopicsById A = some a)
    (ha : a.questionIds = [q1, q2])
    (hB : Rec.find s.data.subTopicsById B = some b)
    (hb : b.questionIds = [q3])
    (hAB : A ≠ B) (h12 : q1 ≠ q2)
    (hq : Rec.find s.data.questionsById q1 = some qe)
    (hown : ∀ p ∈ s.data.subTopicsById, q1 ∈ p.2.questionIds → p.1 = A) :
    (∃ a2 : SubTopicEntity,
      Rec.find (moveQuestionToSubTopic q1 A B 0 s).data.subTopicsById A
        = some a2 ∧ a2.questionIds = [q2]) ∧
    (∃ b2 : SubTopicEntity,
      Rec.find (moveQuestionToSubTopic q1 A B 0 s).data.subTopicsById B
        = some b2 ∧ b2.questionIds = [q1, q3]) ∧
    (∀ p ∈ (moveQuestionToSubTopic q1 A B 0 s).data.subTopicsById,
      q1 ∈ p.2.questionIds ↔ p.1 = B) := by
  have h21 : q2 ≠ q1 := Ne.symm h12
  have hinc : jsIncludes a.questionIds q1 = true := by
    rw [ha]
    simp [jsIncludes]
  have hfil : a.questionIds.filter (fun i => decide (i ≠ q1)) = [q2] := by
    rw [ha]
    simp [h21]
  have hspl : spliceInsert b.questionIds 0 q1 = [q1, q3] := by
    rw [hb]
    rfl
  have hM : moveQuestionToSubTopic q1 A B 0 s = commitStep { s.data with subTopicsById := Rec.insert (Rec.insert s.data.subTopicsById A { a with questionIds := [q2] }) B { b with questionIds := [q1, q3] } } s := by
    simp only [moveQuestionToSubTopic, hA, hB, hq, hinc, hfil, hspl]
    rfl
  rw [hM]
  simp only [commitStep_data]
  refine ⟨?_, ?_, ?_⟩
  · refine ⟨{ a with questionIds := [q2] }, ?_, rfl⟩
    rw [Rec.find_insert_ne _ B A _ hAB]
    exact Rec.find_insert_self _ A _
  · exact ⟨{ b with questionIds := [q1, q3] }, Rec.find_insert_self _ B _, rfl⟩
  · intro p hp
    rcases Rec.mem_insert_elim hp with ⟨hk, hv⟩ | ⟨hp2, hne⟩
    · constructor
      · intro _
        exact hk
      · intro _
        rw [hv]
        simp
    · rcases Rec.mem_insert_elim hp2 with ⟨hk2, hv2⟩ | ⟨hp3, hne2⟩
      · constructor
        · intro hmem
          rw [hv2] at hmem
          simp only [List.mem_singleton] at hmem
          exact absurd hmem h12
        · intro hBk
          exact absurd hBk hne
      · constructor
        · intro hmem
          exact absurd (hown p hp3 hmem) hne2
        · intro hBk
          exact absurd hBk hne

/-- C9. Stale-ownership move precondition: a `moveQuestionToSubTopic` call
whose claimed source sub-topic exists but does not contain the question, and
a `moveSubTopicToTopic` call whose sub-topic back-reference does not name the
claimed source topic, are both silent no-ops: the returned state is the input
state, so the graph and the history are untouched and no error surfaces. -/
theorem claim_C9_stale_move_noop :
    (∀ (s : St) (qid fromId toId : String) (idx : Nat)
      (fst : SubTopicEntity),
      Rec.find s.data.subTopicsById fromId = some fst →
      qid ∉ fst.questionIds →
      moveQuestionToSubTopic qid fromId toId idx s = s) ∧
    (∀ (s : St) (stid fromId toId : String) (idx : Nat)
      (st : SubTopicEntity),
      Rec.find s.data.subTopicsById stid = some st →
      st.topicId ≠ fromId →
      moveSubTopicToTopic stid fromId toId idx s = s) := by
  constructor
  · intro s qid fromId toId idx fst hf hmem
    have hinc : jsIncludes fst.questionIds qid = false := by
      rw [jsIncludes, List.any_eq_false]
      intro x hx hdec
      rw [decide_eq_true_eq] at hdec
      exact hmem (hdec ▸ hx)
    cases h2 : Rec.find s.data.subTopicsById toId with
    | none => simp only [moveQuestionToSubTopic, hf, h2]
    | some ts =>
      cases h3 : Rec.find s.data.questionsById qid with
      | none => simp only [moveQuestionToSubTopic, hf, h2, h3]
      | some qe =>
        simp only [moveQuestionToSubTopic, hf, h2, h3]
        rw [if_pos hinc]
  · intro s stid fromId toId idx st hf hne
    cases h1 : Rec.find s.data.topicsById fromId with
    | none => simp only [moveSubTopicToTopic, h1]
    | some ft =>
      cases h2 : Rec.find s.data.topicsById toId with
      | none => simp only [moveSubTopicToTopic, h1, h2]
      | some tt =>
        simp only [moveSubTopicToTopic, h1, h2, hf]
        rw [if_pos hne]

/-- C10. Self-move duplication: `moveSubTopicToTopic` never compares source
and destination, so a call with `fromTopicId = toTopicId = T` for a sub-topic
that `T` really owns passes every guard, records a history snapshot, and
(because the destination array is read from the pre-update state) leaves the
sub-topic id occurring at least twice in `T.subTopicIds`, breaking exclusive
ownership. -/
theorem claim_C10_self_move_duplicates (s : St) (T stId : String) (idx : Nat)
    (t : TopicEntity) (st : SubTopicEntity)
    (hT : Rec.find s.data.topicsById T = some t)
    (hst : Rec.find s.data.subTopicsById stId = some st)
    (hback : st.topicId = T) (hmem : stId ∈ t.subTopicIds)
    (hq : s.isUndoRedo = false) (hidx : s.histIdx = -1)
    (hlen : s.history.length < MAX_HISTORY_SIZE) :
    (∃ t2 : TopicEntity,
      Rec.find (moveSubTopicToTopic stId T T idx s).data.topicsById T
          = some t2 ∧
      2 ≤ t2.subTopicIds.countP (fun y => decide (y = stId))) ∧
    (moveSubTopicToTopic stId T T idx s).history.length
      = s.history.length + 1 := by
  have hM : moveSubTopicToTopic stId T T idx s = commitStep
      { s.data with
          topicsById := Rec.insert (Rec.insert s.data.topicsById T
              { t with subTopicIds :=
                  t.subTopicIds.filter (fun i => decide (i ≠ stId)) }) T
            { t with subTopicIds := spliceInsert t.subTopicIds idx stId },
          subTopicsById := Rec.insert s.data.subTopicsById stId
            { st with topicId := T } } s := by
    simp only [moveSubTopicToTopic, hT, hst]
    rw [if_neg (not_not_intro hback)]
  constructor
  · refine ⟨{ t with subTopicIds := spliceInsert t.subTopicIds idx stId },
      ?_, ?_⟩
    · rw [hM]
      exact Rec.find_insert_self _ T _
    · show 2 ≤ (spliceInsert t.subTopicIds idx stId).countP
        (fun y => decide (y = stId))
      rw [spliceInsert, List.countP_append, List.countP_cons]
      have hsum : (t.subTopicIds.take idx).countP (fun y => decide (y = stId))
          + (t.subTopicIds.drop idx).countP (fun y => decide (y = stId))
          = t.subTopicIds.countP (fun y => decide (y = stId)) := by
        rw [← List.countP_append, List.take_append_drop]
      have hpos : 0 < t.subTopicIds.countP (fun y => decide (y = stId)) :=
        List.countP_pos.mpr ⟨stId, hmem, by simp⟩
      have hif : ((fun y => decide (y = stId)) stId = true) := by simp
      rw [if_pos hif]
      omega
  · rw [hM]
    have hh : (commitStep
        { s.data with
            topicsById := Rec.insert (Rec.insert s.data.topicsById T
                { t with subTopicIds :=
                    t.subTopicIds.filter (fun i => decide (i ≠ stId)) }) T
              { t with subTopicIds := spliceInsert t.subTopicIds idx stId },
            subTopicsById := Rec.insert s.data.subTopicsById stId
              { st with topicId := T } } s).history
        = s.history ++ [s.data] := by
      show (recordHistory s).history = s.history ++ [s.data]
      have h1 : (0 ≤ s.histIdx) = False := by
        rw [hidx]
        simp
      have h2 : (MAX_HISTORY_SIZE < (s.history ++ [s.data]).length) = False := by
        rw [List.length_append, List.length_singleton]
        rw [MAX_HISTORY_SIZE] at hlen ⊢
        simp
        omega
      simp only [recordHistory, hq, Bool.false_eq_true, if_false,
        createSnapshot, h1, h2]
    rw [hh, List.length_append, List.length_singleton]

/-- C2 (counterexample). The claim that every failed operation leaves the
undo history unchanged is false: `reorderSubTopics` with a topic id that is
not in the mapping leaves the graph unchanged but has already recorded a
history snapshot, so the history differs afterwards. -/
theorem claim_C2_counterexample :
    (reorderSubTopics "missing" 0 0 sampleSt).data = sampleSt.data ∧
    (reorderSubTopics "missing" 0 0 sampleSt).history ≠ sampleSt.history := by
  constructor
  · decide
  · decide

/-- C2 (amended). Every operation that fails its not-found or validation
guards before reaching `_recordHistory` returns the state unchanged (and,
when it returns a structured result, that result has `success = false` and
never throws); the three reorder operations record a snapshot first, so a
reorder whose container id is not found leaves the graph unchanged but ends
with the history of `_recordHistory` (one redundant snapshot). -/
theorem claim_C2_amended :
    (∀ (M : Mutation) (s : St), commits M s = false →
      applyM M s = s ∧ ∀ r, mutResult M s = some r → r.success = false) ∧
    (∀ (s : St) (topicId : String) (src dst : Nat),
      Rec.find s.data.topicsById topicId = none →
      (reorderSubTopics topicId src dst s).data = s.data ∧
      (reorderSubTopics topicId src dst s).history
        = (recordHistory s).history) ∧
    (∀ (s : St) (subTopicId : String) (src dst : Nat),
      Rec.find s.data.subTopicsById subTopicId = none →
      (reorderQuestions subTopicId src dst s).data = s.data ∧
      (reorderQuestions subTopicId src dst s).history
        = (recordHistory s).history) :=
  ⟨applyM_no_commit, reorderSubTopics_missing, reorderQuestions_missing⟩

/-- C8 (counterexample). A non-empty candidate that parses as an absolute
URL with a non-http(s) scheme fails, but with the message "URL must use http
or https protocol" — not "Invalid URL format" as claimed. -/
theorem claim_C8_counterexample :
    (validateUrl "ftp://example.com").valid = false ∧
    (validateUrl "ftp://example.com").error ≠ some "Invalid URL format" := by
  constructor
  · decide
  · decide

/-- C8 (amended). An empty or whitespace-only candidate is valid; a
non-empty candidate is valid exactly when it parses with protocol `http:` or
`https:`; a candidate that does not parse fails with "Invalid URL format",
while one that parses with any other protocol fails with "URL must use http
or https protocol". -/
theorem claim_C8_amended (url : String) :
    (jsTrim url = "" → validateUrl url = ⟨true, none⟩) ∧
    (jsTrim url ≠ "" →
      ((validateUrl url).valid = true ↔
        urlProtocol (jsTrim url) = some "http:" ∨
        urlProtocol (jsTrim url) = some "https:") ∧
      (urlProtocol (jsTrim url) = none →
        validateUrl url = ⟨false, some "Invalid URL format"⟩) ∧
      (∀ p, urlProtocol (jsTrim url) = some p → p ≠ "http:" → p ≠ "https:" →
        validateUrl url
          = ⟨false, some "URL must use http or https protocol"⟩)) := by
  constructor
  · intro he
    simp [validateUrl, he]
  · intro hne
    refine ⟨?_, ?_, ?_⟩
    · cases hp : urlProtocol (jsTrim url) with
      | none => simp [validateUrl, hne, hp]
      | some p =>
        by_cases hh : p ≠ "http:" ∧ p ≠ "https:"
        · simp only [validateUrl, hne, hp, if_neg hne, if_pos hh]
          constructor
          · intro hfalse
            cases hfalse
          · intro hor
            rcases hor with hor | hor <;>
              (rw [Option.some.injEq] at hor; exact absurd hor.symm
                (by rw [hor]; exact (by tauto)))
        · simp only [validateUrl, hne, hp, if_neg hne, if_neg hh]
          rw [not_and_or, not_not, not_not] at hh
          constructor
          · intro _
            rcases hh with hh | hh
            · left
              rw [hh]
            · right
              rw [hh]
          · intro _
            rfl
    · intro hp
      simp [validateUrl, hne, hp]
    · intro p hp hp1 hp2
      simp only [validateUrl, hp]
      rw [if_neg hne, if_pos ⟨hp1, hp2⟩]

theorem key_check_shape (fields : List (String × JsValue)) (k : String)
    (h1 : typeofJs (getProp (JsValue.obj fields) k) = "object")
    (h2 : isNullJs (getProp (JsValue.obj fields) k) = false) :
    ∃ w, Rec.find fields k = some w ∧ isContainerJs w = true := by
  cases hf : Rec.find fields k with
  | none =>
    have hg : getProp (JsValue.obj fields) k = JsValue.jsUndefined := by
      simp [getProp, hf]
    rw [hg] at h1
    simp [typeofJs] at h1
  | some w =>
    have hg : getProp (JsValue.obj fields) k = w := by
      simp [getProp, hf]
    rw [hg] at h1 h2
    cases w with
    | jsUndefined => simp [typeofJs] at h1
    | jsNull => simp [isNullJs] at h2
    | bool b => simp [typeofJs] at h1
    | num n => simp [typeofJs] at h1
    | str s2 => simp [typeofJs] at h1
    | arr elems => exact ⟨_, rfl, rfl⟩
    | obj fields2 => exact ⟨_, rfl, rfl⟩

/-- C7. Corrupted-load recovery: the load-time validity predicate accepts a
persisted shape only if all six required keys are present with container
types and every id in the topic order array is a string that exists in the
topic mapping; a shape missing `questionsById` is rejected, a rejected shape
is discarded by the (modelled) rehydration path, and the core's initial
state is the empty graph — so a corrupted load yields an empty graph rather
than a crash. -/
theorem claim_C7_corrupted_load :
    (∀ v : JsValue, isValidPersistedState v = true → specShapeOk v = true) ∧
    (∀ fields : List (String × JsValue),
      Rec.find fields "questionsById" = none →
      isValidPersistedState (JsValue.obj fields) = false) ∧
    (∀ v : JsValue, isValidPersistedState v = false →
      rehydrateKeep v = none) ∧
    initialSt.data = emptyData := by
  refine ⟨?_, ?_, ?_, rfl⟩
  · intro v h
    cases v with
    | jsUndefined => simp [isValidPersistedState, truthy] at h
    | jsNull => simp [isValidPersistedState, truthy] at h
    | bool b => simp [isValidPersistedState, truthy, typeofJs] at h
    | num n => simp [isValidPersistedState, truthy, typeofJs] at h
    | str s2 => simp [isValidPersistedState, truthy, typeofJs] at h
    | arr elems =>
      simp [isValidPersistedState, truthy, typeofJs, getProp, isNullJs] at h
    | obj fields =>
      simp only [isValidPersistedState] at h
      rw [if_neg (by simp [truthy, typeofJs])] at h
      split at h
      · exact absurd h (by simp)
      rename_i hc1
      split at h
      · exact absurd h (by simp)
      rename_i hc2
      split at h
      · exact absurd h (by simp)
      rename_i hc3
      split at h
      · exact absurd h (by simp)
      rename_i hc4
      split at h
      · exact absurd h (by simp)
      rename_i hc5
      split at h
      · exact absurd h (by simp)
      rename_i hc6
      have k1 := Bool.of_not_eq_true hc1
      rw [Bool.or_eq_false_iff] at k1
      obtain ⟨k1a, k1b⟩ := k1
      rw [decide_eq_false_iff_not, ne_eq, not_not] at k1a
      have k2 := Bool.of_not_eq_true hc2
      rw [Bool.or_eq_false_iff] at k2
      obtain ⟨k2a, k2b⟩ := k2
      rw [decide_eq_false_iff_not, ne_eq, not_not] at k2a
      have k3 := Bool.of_not_eq_true hc3
      rw [Bool.or_eq_false_iff] at k3
      obtain ⟨k3a, k3b⟩ := k3
      rw [decide_eq_false_iff_not, ne_eq, not_not] at k3a
      have k4 : isArrayJs (getProp (JsValue.obj fields) "topicOrder")
          = true := by
        revert hc4
        cases isArrayJs (getProp (JsValue.obj fields) "topicOrder") <;> simp
      have k5 := Bool.of_not_eq_true hc5
      rw [Bool.or_eq_false_iff] at k5
      obtain ⟨k5a, k5b⟩ := k5
      rw [decide_eq_false_iff_not, ne_eq, not_not] at k5a
      have k6 := Bool.of_not_eq_true hc6
      rw [Bool.or_eq_false_iff] at k6
      obtain ⟨k6a, k6b⟩ := k6
      rw [decide_eq_false_iff_not, ne_eq, not_not] at k6a
      obtain ⟨w1, hf1, hw1⟩ := key_check_shape fields "topicsById" k1a k1b
      obtain ⟨w2, hf2, hw2⟩ := key_check_shape fields "subTopicsById" k2a k2b
      obtain ⟨w3, hf3, hw3⟩ := key_check_shape fields "questionsById" k3a k3b
      obtain ⟨w5, hf5, hw5⟩ :=
        key_check_shape fields "expandedTopics" k5a k5b
      obtain ⟨w6, hf6, hw6⟩ :=
        key_check_shape fields "expandedSubTopics" k6a k6b
      have hg1 : getProp (JsValue.obj fields) "topicsById" = w1 := by
        simp [getProp, hf1]
      obtain ⟨ids, hford⟩ :
          ∃ ids, Rec.find fields "topicOrder" = some (JsValue.arr ids) := by
        cases hford : Rec.find fields "topicOrder" with
        | none =>
          have hg : getProp (JsValue.obj fields) "topicOrder"
              = JsValue.jsUndefined := by simp [getProp, hford]
          rw [hg] at k4
          simp [isArrayJs] at k4
        | some w =>
          have hg : getProp (JsValue.obj fields) "topicOrder" = w := by
            simp [getProp, hford]
          rw [hg] at k4
          cases w <;> simp [isArrayJs] at k4
          exact ⟨_, rfl⟩
      have hgord : getProp (JsValue.obj fields) "topicOrder"
          = JsValue.arr ids := by simp [getProp, hford]
      rw [hgord] at h
      simp only at h
      rw [specShapeOk, Bool.and_eq_true]
      constructor
      · rw [List.all_eq_true]
        intro k hk
        fin_cases hk
        · rw [hf1]
          exact hw1
        · rw [hf2]
          exact hw2
        · rw [hf3]
          exact hw3
        · rw [hf5]
          exact hw5
        · rw [hf6]
          exact hw6
      · rw [hford]
        rw [List.all_eq_true] at h ⊢
        intro x hx
        have hxx := h x hx
        cases x <;> simp_all [hg1, hf1]
  · intro fields hqnone
    have hu : getProp (JsValue.obj fields) "questionsById" = JsValue.jsUndefined := by
      simp [getProp, hqnone]
    simp only [isValidPersistedState]
    rw [if_neg (by simp [truthy, typeofJs])]
    split
    · rfl
    · split
      · rfl
      · rw [if_pos (by rw [hu]; simp [typeofJs, isNullJs])]
  · intro v h
    simp [rehydrateKeep, h]

/-! ### Closed witnesses -/

/-- Witness for C1 at a concrete store and mutation. -/
theorem claim_C1_witness :
    (undo (applyM (Mutation.addTopic "Strings" "t2") sampleSt)).data
      = sampleSt.data ∧
    (redo (undo (applyM (Mutation.addTopic "Strings" "t2") sampleSt))).data
      = (applyM (Mutation.addTopic "Strings" "t2") sampleSt).data :=
  claim_C1_undo_redo_roundtrip sampleSt (Mutation.addTopic "Strings" "t2")
    rfl rfl (by decide)

/-- Witness for the amended C2 at a concrete failing call. -/
theorem claim_C2_witness :
    applyM (Mutation.updateTopic "zzz" "Whatever") sampleSt = sampleSt ∧
    (reorderQuestions "nope" 0 0 sampleSt).data = sampleSt.data :=
  ⟨(claim_C2_amended.1 (Mutation.updateTopic "zzz" "Whatever") sampleSt
      (by decide)).1,
   (claim_C2_amended.2.2 sampleSt "nope" 0 0 (by decide)).1⟩

/-- Witness for C3 at a concrete store and mutation pair. -/
theorem claim_C3_witness :
    canRedo (applyM (Mutation.updateTopic "t1" "Arrayz")
      (undo (applyM (Mutation.addTopic "Strings" "t2") sampleSt))) = false :=
  (claim_C3_redo_invalidation sampleSt (Mutation.addTopic "Strings" "t2")
    (Mutation.updateTopic "t1" "Arrayz") rfl rfl (by decide) (by decide)).1

/-- Witness for C4 at the concrete sample store. -/
theorem claim_C4_witness :
    ∃ a2 : SubTopicEntity,
      Rec.find (moveQuestionToSubTopic "q1" "s1" "s2" 0
        sampleSt).data.subTopicsById "s1" = some a2 ∧
      a2.questionIds = ["q2"] :=
  (claim_C4_cross_container_move sampleSt "q1" "q2" "q3" "s1" "s2"
    ⟨"s1", "Basics", "t1", ["q1", "q2"]⟩ ⟨"s2", "Advanced", "t1", ["q3"]⟩
    ⟨"q1", "Two Sum", some "Easy", none⟩ (by decide) rfl (by decide) rfl
    (by decide) (by decide) (by decide) (by decide)).1

/-- Witness for C5 at the concrete sample store. -/
theorem claim_C5_witness :
    Rec.find (deleteTopic "t1" sampleSt).data.topicsById "t1" = none ∧
    canUndo (deleteTopic "t1" sampleSt) = true ∧
    (undo (deleteTopic "t1" sampleSt)).data = sampleSt.data := by
  have h := claim_C5_cascade_delete sampleSt "t1"
    ⟨"t1", "Arrays", ["s1", "s2"]⟩ (by decide) rfl
  exact ⟨h.1, h.2.2.2.2.1, h.2.2.2.2.2⟩

/-- Witness for C6 at a concrete store. -/
theorem claim_C6_witness :
    (applyM (Mutation.addTopic "Strings" "t2") sampleSt).history.length
      ≤ MAX_HISTORY_SIZE ∧
    undoN (20 + 1) sampleSt = undoN 20 sampleSt :=
  ⟨claim_C6_history_bound.1 (Mutation.addTopic "Strings" "t2") sampleSt
      (by decide),
   claim_C6_history_bound.2 sampleSt 1 rfl (by decide)⟩

/-- Witness for C7 at a concrete shape missing `questionsById`. -/
theorem claim_C7_witness :
    isValidPersistedState (JsValue.obj [("topicsById", JsValue.obj []),
      ("subTopicsById", JsValue.obj []), ("topicOrder", JsValue.arr []),
      ("expandedTopics", JsValue.obj []),
      ("expandedSubTopics", JsValue.obj [])]) = false ∧
    rehydrateKeep (JsValue.str "garbage") = none :=
  ⟨claim_C7_corrupted_load.2.1 _ rfl,
   claim_C7_corrupted_load.2.2.1 _ rfl⟩

/-- Witness for the amended C8 at concrete URLs. -/
theorem claim_C8_witness :
    (validateUrl "https://leetcode.com/problems/two-sum").valid = true ∧
    validateUrl "notaurl" = ⟨false, some "Invalid URL format"⟩ :=
  ⟨((claim_C8_amended "https://leetcode.com/problems/two-sum").2
      (by decide)).1.mpr (Or.inr (by decide)),
   ((claim_C8_amended "notaurl").2 (by decide)).2.1 (by decide)⟩

/-- Witness for C9 at concrete stale move calls. -/
theorem claim_C9_witness :
    moveQuestionToSubTopic "q3" "s1" "s2" 0 sampleSt = sampleSt ∧
    moveSubTopicToTopic "s1" "t9" "t1" 0 sampleSt = sampleSt := by
  constructor
  · exact claim_C9_stale_move_noop.1 sampleSt "q3" "s1" "s2" 0
      ⟨"s1", "Basics", "t1", ["q1", "q2"]⟩ (by decide) (by decide)
  · exact claim_C9_stale_move_noop.2 sampleSt "s1" "t9" "t1" 0
      ⟨"s1", "Basics", "t1", ["q1", "q2"]⟩ (by decide) (by decide)

/-- Witness for C10 at the concrete sample store. -/
theorem claim_C10_witness :
    (moveSubTopicToTopic "s1" "t1" "t1" 1 sampleSt).history.length
      = sampleSt.history.length + 1 :=
  (claim_C10_self_move_duplicates sampleSt "t1" "s1" 1
    ⟨"t1", "Arrays", ["s1", "s2"]⟩ ⟨"s1", "Basics", "t1", ["q1", "q2"]⟩
    (by decide) (by decide) rfl (by decide) rfl rfl (by decide)).2
